import Mathlib

/-!
Verification of the formatting/parsing utility layer of
`src/utils/formatters.py` (Sistema de Cálculos y Herramientas,
Tribunal de Trabajo 2 de Quilmes).

Numeric values handled by the Python code are modelled as exact rationals
`ℚ`.  For `redondear_decimal` this is faithful by construction: the source
first runs the value through `Decimal(str(valor))`, i.e. it operates on the
exact decimal number that the argument prints as, which an
arbitrary-precision rational captures exactly.
-/

namespace Formatters

/-- Round a rational to the nearest integer with ties away from zero.
This is the meaning of `decimal.ROUND_HALF_UP` in Python's `decimal`
module ("round to nearest with ties going away from zero"), used at
formatters.py:287. -/
def roundHalfUp (x : ℚ) : ℤ :=
  if 0 ≤ x then ⌊x + 1 / 2⌋ else -⌊-x + 1 / 2⌋

/-- `redondear_decimal` (formatters.py:259-287):
`float(Decimal(str(valor)).quantize(Decimal(10) ** -decimales, ROUND_HALF_UP))`.
Quantizing an exact decimal to `decimales` fractional digits with
`ROUND_HALF_UP` is scaling by `10 ^ decimales`, rounding to the nearest
integer with ties away from zero, and scaling back. -/
def redondear_decimal (valor : ℚ) (decimales : ℕ := 2) : ℚ :=
  (roundHalfUp (valor * 10 ^ decimales) : ℚ) / 10 ^ decimales

theorem roundHalfUp_neg (x : ℚ) : roundHalfUp (-x) = -roundHalfUp x := by
  rcases lt_trichotomy x 0 with h | h | h
  · have h1 : 0 ≤ -x := by linarith
    have h2 : ¬ 0 ≤ x := not_le.mpr h
    simp [roundHalfUp, h1, h2]
  · subst h
    norm_num [roundHalfUp]
  · have h1 : ¬ 0 ≤ -x := by simpa using h
    simp [roundHalfUp, h1, not_le.mpr, le_of_lt h, neg_neg]

theorem roundHalfUp_nonneg_spec (x : ℚ) (hx : 0 ≤ x) :
    |x - roundHalfUp x| ≤ 1 / 2 ∧
      (|x - roundHalfUp x| = 1 / 2 → |x| ≤ |(roundHalfUp x : ℚ)|) := by
  have hdef : roundHalfUp x = ⌊x + 1 / 2⌋ := by simp [roundHalfUp, hx]
  have h1 : (⌊x + 1 / 2⌋ : ℚ) ≤ x + 1 / 2 := Int.floor_le _
  have h2 : x + 1 / 2 < (⌊x + 1 / 2⌋ : ℚ) + 1 := Int.lt_floor_add_one _
  rw [hdef]
  constructor
  · rw [abs_le]; constructor <;> linarith
  · intro habs
    have hcases := abs_eq (by norm_num : (0 : ℚ) ≤ 1 / 2) |>.mp habs
    rcases hcases with hc | hc
    · -- x - n = 1/2 would contradict the strict bound h2
      exfalso; linarith
    · -- n = x + 1/2 > x ≥ 0
      have hn : (⌊x + 1 / 2⌋ : ℚ) = x + 1 / 2 := by linarith
      rw [hn, abs_of_nonneg hx, abs_of_nonneg (by linarith : (0 : ℚ) ≤ x + 1 / 2)]
      linarith

theorem roundHalfUp_spec (x : ℚ) :
    |x - roundHalfUp x| ≤ 1 / 2 ∧
      (|x - roundHalfUp x| = 1 / 2 → |x| ≤ |(roundHalfUp x : ℚ)|) := by
  rcases le_or_lt 0 x with hx | hx
  · exact roundHalfUp_nonneg_spec x hx
  · have h := roundHalfUp_nonneg_spec (-x) (by linarith)
    have hneg : roundHalfUp x = -roundHalfUp (-x) := by
      rw [roundHalfUp_neg, neg_neg]
    rw [hneg]
    push_cast
    constructor
    · have := h.1
      rw [show x - -(roundHalfUp (-x) : ℚ) = -(-x - roundHalfUp (-x)) by ring,
        abs_neg]
      exact this
    · intro habs
      have habs' : |(-x) - (roundHalfUp (-x) : ℚ)| = 1 / 2 := by
        rw [show (-x) - (roundHalfUp (-x) : ℚ) = -(x - -(roundHalfUp (-x) : ℚ)) by ring,
          abs_neg]
        exact habs
      have hle := h.2 habs'
      rw [abs_neg] at hle
      simpa [abs_neg] using hle

/-- C1: `redondear_decimal` works on the exact decimal value of its input
(modelled as `ℚ`) and rounds to `decimales` fractional digits using
round-half-away-from-zero, symmetrically for negatives: the result is an
integer multiple of `10 ^ -places` within half an ulp of the input, and a
tie is resolved towards the value of larger magnitude.  In particular
`round_legal 2.5 0 = 3`, `round_legal (-2.5) 0 = -3`,
`round_legal 1.235 2 = 1.24`. -/
theorem redondear_decimal_half_away_from_zero :
    redondear_decimal (5 / 2) 0 = 3 ∧
    redondear_decimal (-5 / 2) 0 = -3 ∧
    redondear_decimal (1235 / 1000) 2 = 124 / 100 ∧
    (∀ (q : ℚ) (d : ℕ), redondear_decimal (-q) d = -redondear_decimal q d) ∧
    (∀ (q : ℚ) (d : ℕ), ∃ n : ℤ,
      redondear_decimal q d = (n : ℚ) / 10 ^ d ∧
      |q - (n : ℚ) / 10 ^ d| ≤ 1 / (2 * 10 ^ d) ∧
      (|q - (n : ℚ) / 10 ^ d| = 1 / (2 * 10 ^ d) → |q| ≤ |(n : ℚ) / 10 ^ d|)) := by
  refine ⟨?_, ?_, ?_, ?_, ?_⟩
  · norm_num [redondear_decimal, roundHalfUp]
  · norm_num [redondear_decimal, roundHalfUp]
  · norm_num [redondear_decimal, roundHalfUp]
  · intro q d
    unfold redondear_decimal
    rw [neg_mul, roundHalfUp_neg]
    push_cast
    ring
  · intro q d
    have hpow : (0 : ℚ) < 10 ^ d := by positivity
    have hdiff : q - (roundHalfUp (q * 10 ^ d) : ℚ) / 10 ^ d
        = (q * 10 ^ d - roundHalfUp (q * 10 ^ d)) / 10 ^ d := by
      field_simp
    have habsdiff : |q - (roundHalfUp (q * 10 ^ d) : ℚ) / 10 ^ d|
        = |q * 10 ^ d - (roundHalfUp (q * 10 ^ d) : ℚ)| / 10 ^ d := by
      rw [hdiff, abs_div, abs_of_pos hpow]
    refine ⟨roundHalfUp (q * 10 ^ d), rfl, ?_, ?_⟩
    · have h := (roundHalfUp_spec (q * 10 ^ d)).1
      rw [habsdiff, div_le_div_iff hpow (by positivity)]
      calc |q * 10 ^ d - (roundHalfUp (q * 10 ^ d) : ℚ)| * (2 * 10 ^ d)
          ≤ (1 / 2) * (2 * 10 ^ d) := by
            apply mul_le_mul_of_nonneg_right h; positivity
        _ = 1 * 10 ^ d := by ring
    · intro habs
      rw [habsdiff] at habs
      have habs' : |q * 10 ^ d - (roundHalfUp (q * 10 ^ d) : ℚ)| = 1 / 2 := by
        have hmul : |q * 10 ^ d - (roundHalfUp (q * 10 ^ d) : ℚ)| * (2 * 10 ^ d)
            = 1 * 10 ^ d := by
          rw [div_eq_div_iff (ne_of_gt hpow) (by positivity)] at habs
          linarith
        have hz : (2 * |q * 10 ^ d - (roundHalfUp (q * 10 ^ d) : ℚ)| - 1) * 10 ^ d
            = 0 := by ring_nf; ring_nf at hmul; linarith
        rcases mul_eq_zero.mp hz with hz | hz
        · linarith
        · exact absurd hz (ne_of_gt hpow)
      have h := (roundHalfUp_spec (q * 10 ^ d)).2 habs'
      have hq : |q * 10 ^ d| = |q| * 10 ^ d := by
        rw [abs_mul, abs_of_pos hpow]
      have hn : |(roundHalfUp (q * 10 ^ d) : ℚ) / 10 ^ d|
          = |(roundHalfUp (q * 10 ^ d) : ℚ)| / 10 ^ d := by
        rw [abs_div, abs_of_pos hpow]
      rw [hn, le_div_iff hpow]
      rw [hq] at h
      linarith

/-! ### Decimal digit strings

Infrastructure shared by the embeddings of Python's `str`/`format` of
integers: rendering a natural number as its decimal digit characters and
reading digit characters back. -/

/-- The decimal digit character for `k ≤ 9` (`'0'` has code point 48). -/
def dchar (k : ℕ) : Char := Char.ofNat (48 + k)

/-- Decimal digit character test (`'0'` to `'9'`). -/
def isDigitC (c : Char) : Bool := 48 ≤ c.toNat && c.toNat ≤ 57

theorem dchar_toNat (k : ℕ) (h : k ≤ 9) : (dchar k).toNat = 48 + k := by
  have hv : (48 + k).isValidChar := by constructor; omega
  simp only [dchar, Char.ofNat, hv, dite_true, Char.ofNatAux, Char.toNat]
  rfl

theorem isDigitC_dchar (k : ℕ) (h : k ≤ 9) : isDigitC (dchar k) = true := by
  simp [isDigitC, dchar_toNat k h]
  omega

/-- Decimal rendering of a natural number, as Python's `str`/`format`
produces it (most significant digit first, `"0"` for zero). -/
def natDigitsL (n : ℕ) : List Char :=
  if n = 0 then ['0'] else ((Nat.digits 10 n).map dchar).reverse

/-- Numeric value of a list of decimal digit characters (the value
`int(...)` computes on a plain digit string). -/
def valDigits (cs : List Char) : ℕ :=
  cs.foldl (fun a c => 10 * a + (c.toNat - 48)) 0

theorem valDigits_append_digit (cs : List Char) (c : Char) :
    valDigits (cs ++ [c]) = 10 * valDigits cs + (c.toNat - 48) := by
  simp [valDigits, List.foldl_append]

theorem valDigits_rev_map (l : List ℕ) (h : ∀ d ∈ l, d < 10) :
    valDigits ((l.map dchar).reverse) = Nat.ofDigits 10 l := by
  induction l with
  | nil => simp [valDigits, Nat.ofDigits]
  | cons d t ih =>
    have hd : d < 10 := h d (by simp)
    have ht : ∀ x ∈ t, x < 10 := fun x hx => h x (by simp [hx])
    simp only [List.map_cons, List.reverse_cons, valDigits_append_digit, ih ht,
      Nat.ofDigits_cons]
    rw [dchar_toNat d (by omega)]
    omega

theorem valDigits_natDigitsL (n : ℕ) : valDigits (natDigitsL n) = n := by
  by_cases h : n = 0
  · subst h; simp [natDigitsL, valDigits]
  · rw [natDigitsL, if_neg h,
      valDigits_rev_map _ (fun d hd => Nat.digits_lt_base (by norm_num) hd),
      Nat.ofDigits_digits]

theorem natDigitsL_ne_nil (n : ℕ) : natDigitsL n ≠ [] := by
  by_cases h : n = 0
  · subst h; simp [natDigitsL]
  · rw [natDigitsL, if_neg h]
    simp [Nat.digits_ne_nil_iff_ne_zero, h]

theorem mem_natDigitsL_isDigit (n : ℕ) :
    ∀ c ∈ natDigitsL n, isDigitC c = true := by
  intro c hc
  by_cases h : n = 0
  · subst h; simp [natDigitsL] at hc; subst hc; decide
  · rw [natDigitsL, if_neg h, List.mem_reverse, List.mem_map] at hc
    obtain ⟨d, hd, rfl⟩ := hc
    exact isDigitC_dchar d (by have := Nat.digits_lt_base (by norm_num) hd; omega)

/-- Python `int` truncation toward zero (what `int(x)` does for a numeric
`x`). -/
def qtrunc (q : ℚ) : ℤ := q.num.tdiv q.den

/-- Python's built-in `round` on an exact value: round to the nearest
integer, ties to the even neighbour (banker's rounding). -/
def roundHalfEven (x : ℚ) : ℤ :=
  if x - ⌊x⌋ < 1 / 2 then ⌊x⌋
  else if 1 / 2 < x - ⌊x⌋ then ⌊x⌋ + 1
  else if ⌊x⌋ % 2 = 0 then ⌊x⌋ else ⌊x⌋ + 1

/-- Python `f"{d:02d}"`: decimal rendering zero-padded to a total width of
two characters (sign included in the width). -/
def pad02 (d : ℤ) : String :=
  if d < 0 then String.mk ('-' :: natDigitsL d.natAbs)
  else if d.natAbs < 10 then String.mk ('0' :: natDigitsL d.natAbs)
  else String.mk (natDigitsL d.natAbs)

/-! ### numero_a_letras (formatters.py:138-231)

The embedding models the non-negative domain: `int(numero)` truncates
toward zero, which on `numero ≥ 0` is `(qtrunc numero).toNat`.  (For
negative inputs the Python code falls into accidental negative list
indexing; no theorem below is about that region, and every theorem about
`numero_a_letras` carries a `0 ≤ numero` hypothesis.) -/

def unidades : List String :=
  ["", "UN", "DOS", "TRES", "CUATRO", "CINCO", "SEIS", "SIETE", "OCHO", "NUEVE"]

def decenas : List String :=
  ["", "", "VEINTE", "TREINTA", "CUARENTA", "CINCUENTA", "SESENTA", "SETENTA",
   "OCHENTA", "NOVENTA"]

def especiales : List String :=
  ["DIEZ", "ONCE", "DOCE", "TRECE", "CATORCE", "QUINCE", "DIECISÉIS",
   "DIECISIETE", "DIECIOCHO", "DIECINUEVE"]

def centenas : List String :=
  ["", "CIENTO", "DOSCIENTOS", "TRESCIENTOS", "CUATROCIENTOS", "QUINIENTOS",
   "SEISCIENTOS", "SETECIENTOS", "OCHOCIENTOS", "NOVECIENTOS"]

/-- `convertir_grupo` (formatters.py:161-184): 0-999 to Spanish words. -/
def convertir_grupo (n : ℕ) : String :=
  if n = 0 then ""
  else if n = 100 then "CIEN"
  else if n < 10 then unidades.getD n ""
  else if n < 20 then especiales.getD (n - 10) ""
  else if n < 100 then
    if n % 10 = 0 then decenas.getD (n / 10) ""
    else decenas.getD (n / 10) "" ++ (if 2 < n / 10 then " Y " else "I") ++
      unidades.getD (n % 10) ""
  else
    if n % 100 = 0 then centenas.getD (n / 100) ""
    else centenas.getD (n / 100) "" ++ " " ++ convertir_grupo (n % 100)
termination_by n
decreasing_by
  simp_wf
  omega

/-- The trailing `if resto > 0:` block shared by the two upper branches of
`numero_a_letras` (formatters.py:201-207 and 213-219): append the
thousands group and the final group of `resto` to `texto`. -/
def agregarMilesYResto (texto : String) (resto : ℕ) : String :=
  if resto > 0 then
    let texto1 := if resto ≥ 1000 then
        texto ++ " " ++ convertir_grupo (resto / 1000) ++ " MIL"
      else texto
    let resto1 := if resto ≥ 1000 then resto % 1000 else resto
    if resto1 > 0 then texto1 ++ " " ++ convertir_grupo resto1 else texto1
  else texto

/-- The words for the integer part of the amount: the `texto` computed by
the branch ladder of `numero_a_letras` (formatters.py:192-229). -/
def texto_entero (entero : ℕ) : String :=
  if entero ≥ 1000000000 then
    let miles_millon := entero / 1000000000
    let resto := entero % 1000000000
    let texto := convertir_grupo miles_millon ++ " MIL"
    let millones := resto / 1000000
    let texto1 := if resto ≥ 1000000 then
        texto ++ " " ++ (if millones > 1 then convertir_grupo millones else "UN")
          ++ " MILLÓN" ++ (if millones > 1 then "ES" else "")
      else texto
    let resto1 := if resto ≥ 1000000 then resto % 1000000 else resto
    agregarMilesYResto texto1 resto1
  else if entero ≥ 1000000 then
    let millones := entero / 1000000
    let resto := entero % 1000000
    let texto := (if millones > 1 then convertir_grupo millones else "UN")
      ++ " MILLÓN" ++ (if millones > 1 then "ES" else "")
    agregarMilesYResto texto resto
  else if entero ≥ 1000 then
    let miles := entero / 1000
    let resto := entero % 1000
    let texto := convertir_grupo miles ++ " MIL"
    if resto > 0 then texto ++ " " ++ convertir_grupo resto else texto
  else convertir_grupo entero

/-- `numero_a_letras` (formatters.py:138-231) on the modelled (exact,
non-negative) domain. -/
def numero_a_letras (numero : ℚ) : String :=
  if numero = 0 then "CERO PESOS"
  else
    let entero : ℕ := (qtrunc numero).toNat
    let decimal : ℤ := roundHalfEven ((numero - (entero : ℚ)) * 100)
    "PESOS " ++ texto_entero entero ++ " CON " ++ pad02 decimal ++ "/100"

/-! ### Helper lemmas for the word conversion -/

theorem dchar_eval0 : dchar 0 = '0' := by decide

theorem dchar_eval1 : dchar 1 = '1' := by decide

theorem dchar_eval2 : dchar 2 = '2' := by decide

theorem dchar_eval3 : dchar 3 = '3' := by decide

theorem dchar_eval4 : dchar 4 = '4' := by decide

theorem dchar_eval5 : dchar 5 = '5' := by decide

theorem dchar_eval6 : dchar 6 = '6' := by decide

theorem dchar_eval7 : dchar 7 = '7' := by decide

theorem dchar_eval8 : dchar 8 = '8' := by decide

theorem dchar_eval9 : dchar 9 = '9' := by decide

theorem qtrunc_eq_floor (q : ℚ) (h : 0 ≤ q) : qtrunc q = ⌊q⌋ := by
  rw [qtrunc, Rat.floor_def]
  exact Int.tdiv_eq_ediv (Rat.num_nonneg.mpr h) (Int.natCast_nonneg _)

theorem append_pesos_ne_cero (x : String) : "PESOS " ++ x ≠ "CERO PESOS" := by
  intro h
  have h2 := congrArg String.data h
  rw [String.data_append] at h2
  simp at h2

theorem roundHalfEven_nonneg (x : ℚ) (h : 0 ≤ x) : 0 ≤ roundHalfEven x := by
  have h0 : (0 : ℤ) ≤ ⌊x⌋ := Int.floor_nonneg.mpr h
  unfold roundHalfEven
  split
  · exact h0
  · split
    · omega
    · split <;> omega

theorem roundHalfEven_le_floor_add_one (x : ℚ) : roundHalfEven x ≤ ⌊x⌋ + 1 := by
  unfold roundHalfEven
  split
  · omega
  · split
    · omega
    · split <;> omega

theorem convertir_grupo_lt100_y (n : ℕ) (h1 : n < 100) (h3 : 2 < n / 10)
    (h0 : n % 10 ≠ 0) :
    convertir_grupo n
      = decenas.getD (n / 10) "" ++ " Y " ++ unidades.getD (n % 10) "" := by
  have e0 : ¬ n = 0 := by omega
  have e1 : ¬ n = 100 := by omega
  have e2 : ¬ n < 10 := by omega
  have e3 : ¬ n < 20 := by omega
  unfold convertir_grupo
  simp only [if_neg e0, if_neg e1, if_neg e2, if_neg e3, if_pos h1, if_neg h0,
    if_pos h3]

theorem convertir_grupo_lt100_i (n : ℕ) (h1 : n < 100) (h3 : n / 10 = 2)
    (h0 : n % 10 ≠ 0) :
    convertir_grupo n
      = decenas.getD 2 "" ++ "I" ++ unidades.getD (n % 10) "" := by
  have e0 : ¬ n = 0 := by omega
  have e1 : ¬ n = 100 := by omega
  have e2 : ¬ n < 10 := by omega
  have e3 : ¬ n < 20 := by omega
  have e4 : ¬ 2 < n / 10 := by omega
  unfold convertir_grupo
  simp only [if_neg e0, if_neg e1, if_neg e2, if_neg e3, if_pos h1, if_neg h0,
    if_neg e4, h3]
  norm_num

theorem convertir_grupo_gt100 (n : ℕ) (h1 : 100 < n) (h2 : n % 100 ≠ 0) :
    convertir_grupo n
      = centenas.getD (n / 100) "" ++ " " ++ convertir_grupo (n % 100) := by
  have e0 : ¬ n = 0 := by omega
  have e1 : ¬ n = 100 := by omega
  have e2 : ¬ n < 10 := by omega
  have e3 : ¬ n < 20 := by omega
  have e4 : ¬ n < 100 := by omega
  conv_lhs => rw [convertir_grupo.eq_def]
  simp only [if_neg e0, if_neg e1, if_neg e2, if_neg e3, if_neg e4, if_neg h2]

/-- C4: lexical rules of the three-digit group conversion
(`convertir_grupo`, formatters.py:161-184): 100 is exactly `"CIEN"`,
101-199 are `"CIENTO "` followed by the words for `n % 100`, a group with
tens digit above 2 and a nonzero units digit joins tens and units words
with `" Y "`, and a group with tens digit exactly 2 and a nonzero units
digit joins them with the single letter `"I"` (no spaces). -/
theorem convertir_grupo_lexical_rules :
    convertir_grupo 100 = "CIEN" ∧
    (∀ n, 101 ≤ n → n ≤ 199 →
      convertir_grupo n = "CIENTO " ++ convertir_grupo (n % 100)) ∧
    (∀ n, n ≤ 999 → 2 < n / 10 % 10 → n % 10 ≠ 0 →
      convertir_grupo n
        = (if n < 100 then "" else centenas.getD (n / 100) "" ++ " ")
          ++ (decenas.getD (n / 10 % 10) "" ++ " Y " ++ unidades.getD (n % 10) "")) ∧
    (∀ n, n ≤ 999 → n / 10 % 10 = 2 → n % 10 ≠ 0 →
      convertir_grupo n
        = (if n < 100 then "" else centenas.getD (n / 100) "" ++ " ")
          ++ (decenas.getD 2 "" ++ "I" ++ unidades.getD (n % 10) "")) := by
  have hmerge : ∀ s t : String, s ++ " " ++ t = (s ++ " ") ++ t := by
    intro s t; rfl
  refine ⟨by simp [convertir_grupo], ?_, ?_, ?_⟩
  · intro n hlo hhi
    have hmod : n % 100 ≠ 0 := by omega
    have hdiv : n / 100 = 1 := by omega
    rw [convertir_grupo_gt100 n (by omega) hmod, hdiv]
    have : (centenas.getD 1 "" ++ " " : String) = "CIENTO " := by decide
    rw [hmerge, this]
  · intro n hn ht hu
    by_cases h100 : n < 100
    · have hd : n / 10 % 10 = n / 10 := by omega
      rw [convertir_grupo_lt100_y n h100 (by omega) hu, if_pos h100, hd]
      exact (String.empty_append _).symm
    · have h1 : 100 < n := by omega
      have hmod : n % 100 ≠ 0 := by omega
      rw [convertir_grupo_gt100 n h1 hmod,
        convertir_grupo_lt100_y (n % 100) (by omega) (by omega) (by omega),
        if_neg h100]
      have ha : (n % 100) / 10 = n / 10 % 10 := by omega
      have hb : (n % 100) % 10 = n % 10 := by omega
      rw [ha, hb, hmerge]
  · intro n hn ht hu
    by_cases h100 : n < 100
    · have hd : n / 10 = 2 := by omega
      rw [convertir_grupo_lt100_i n h100 hd hu, if_pos h100]
      exact (String.empty_append _).symm
    · have h1 : 100 < n := by omega
      have hmod : n % 100 ≠ 0 := by omega
      rw [convertir_grupo_gt100 n h1 hmod,
        convertir_grupo_lt100_i (n % 100) (by omega) (by omega) (by omega),
        if_neg h100]
      have hb : (n % 100) % 10 = n % 10 := by omega
      rw [hb, hmerge]

theorem convertir_grupo_lexical_rules_witness :
    convertir_grupo 145 = "CIENTO CUARENTA Y CINCO"
      ∧ convertir_grupo 22 = "VEINTEIDOS" := by
  have h2 := convertir_grupo_lexical_rules.2.1 145 (by norm_num) (by norm_num)
  have h3 := convertir_grupo_lexical_rules.2.2.1 45 (by norm_num) (by norm_num)
    (by norm_num)
  have h4 := convertir_grupo_lexical_rules.2.2.2 22 (by norm_num) (by norm_num)
    (by norm_num)
  norm_num at h2 h3 h4
  constructor
  · rw [h2, h3]
    decide
  · rw [h4]
    decide

/-! ### Lemmas for numero_a_letras -/

theorem texto_entero_zero : texto_entero 0 = "" := by
  simp [texto_entero, convertir_grupo]

theorem agregarMilesYResto_zero (t : String) : agregarMilesYResto t 0 = t := by
  simp [agregarMilesYResto]

theorem texto_entero_un_millon : texto_entero 1000000 = "UN MILLÓN" := by
  simp only [texto_entero]
  norm_num
  simp [agregarMilesYResto]

theorem texto_entero_k_millones (k : ℕ) (h2 : 2 ≤ k) (h999 : k ≤ 999) :
    texto_entero (k * 1000000) = convertir_grupo k ++ " MILLÓNES" := by
  have hlt : ¬ k * 1000000 ≥ 1000000000 := by omega
  have hge : k * 1000000 ≥ 1000000 := by omega
  have hm : k * 1000000 / 1000000 = k := by omega
  have hr : k * 1000000 % 1000000 = 0 := by omega
  unfold texto_entero
  rw [if_neg hlt, if_pos hge]
  simp only [hm, hr, agregarMilesYResto_zero, if_pos (by omega : 1 < k)]
  rw [String.append_assoc, show (" MILLÓN" ++ "ES" : String) = " MILLÓNES" from by decide]

theorem pad02_zero : pad02 0 = "00" := by
  simp [pad02, natDigitsL]

theorem numero_a_letras_forma_interna (q : ℚ) (hne : q ≠ 0) :
    numero_a_letras q
      = "PESOS " ++ texto_entero ((qtrunc q).toNat) ++ " CON "
        ++ pad02 (roundHalfEven ((q - (((qtrunc q).toNat : ℕ) : ℚ)) * 100)) ++ "/100" := by
  unfold numero_a_letras
  rw [if_neg hne]

theorem centavos_bounds (q : ℚ) (hq : 0 ≤ q) :
    0 ≤ roundHalfEven ((q - (((qtrunc q).toNat : ℕ) : ℚ)) * 100) ∧
      roundHalfEven ((q - (((qtrunc q).toNat : ℕ) : ℚ)) * 100) ≤ 100 := by
  have hcast : ((((qtrunc q).toNat : ℕ) : ℚ)) = (⌊q⌋ : ℚ) := by
    rw [qtrunc_eq_floor q hq]
    exact_mod_cast congrArg (fun z : ℤ => (z : ℚ))
      (Int.toNat_of_nonneg (Int.floor_nonneg.mpr hq))
  rw [hcast]
  have hfr0 : (0 : ℚ) ≤ q - ⌊q⌋ := by
    have := Int.floor_le q; linarith
  have hfr1 : q - ⌊q⌋ < 1 := by
    have := Int.lt_floor_add_one q; linarith
  constructor
  · exact roundHalfEven_nonneg _ (by nlinarith)
  · have hx : (q - ⌊q⌋) * 100 < 100 := by nlinarith
    have hfl : ⌊(q - (⌊q⌋ : ℚ)) * 100⌋ < 100 := by
      exact_mod_cast Int.floor_lt.mpr (by exact_mod_cast hx)
    have := roundHalfEven_le_floor_add_one ((q - (⌊q⌋ : ℚ)) * 100)
    omega

theorem qtrunc_un_millon : qtrunc (1000000 : ℚ) = 1000000 := by
  simp [qtrunc]

theorem numero_a_letras_un_millon :
    numero_a_letras 1000000 = "PESOS UN MILLÓN CON 00/100" := by
  rw [numero_a_letras_forma_interna 1000000 (by norm_num), qtrunc_un_millon,
    show Int.toNat 1000000 = 1000000 from rfl,
    show ((1000000 : ℚ) - ((1000000 : ℕ) : ℚ)) * 100 = 0 by norm_num]
  rw [show roundHalfEven 0 = 0 by norm_num [roundHalfEven], pad02_zero,
    texto_entero_un_millon]
  decide

/-- C5 (amended): `numero_a_letras 0` is the literal `"CERO PESOS"` and every
other non-negative value yields a string of the shape
`"PESOS " ++ words ++ " CON " ++ cc ++ "/100"` where `cc` is the half-even
rounding of the fractional part times 100, zero-padded to a width of two
(so normally two digits, but the literal `"100"` when the fractional part
rounds up to a full peso); exactly one million renders as the singular
`"UN MILLÓN"`, while `k ≥ 2` whole millions render as
`convertir_grupo k ++ " MILLÓNES"` — with the accent of `MILLÓN` kept in
the plural, as the code concatenates `' MILLÓN' + 'ES'`. -/
theorem numero_a_letras_forma :
    numero_a_letras 0 = "CERO PESOS" ∧
    (∀ q : ℚ, q ≠ 0 → numero_a_letras q ≠ "CERO PESOS") ∧
    (∀ q : ℚ, q ≠ 0 →
      numero_a_letras q
        = "PESOS " ++ texto_entero ((qtrunc q).toNat) ++ " CON "
          ++ pad02 (roundHalfEven ((q - (((qtrunc q).toNat : ℕ) : ℚ)) * 100)) ++ "/100") ∧
    (∀ q : ℚ, 0 ≤ q →
      0 ≤ roundHalfEven ((q - (((qtrunc q).toNat : ℕ) : ℚ)) * 100) ∧
        roundHalfEven ((q - (((qtrunc q).toNat : ℕ) : ℚ)) * 100) ≤ 100) ∧
    texto_entero 1000000 = "UN MILLÓN" ∧
    (∀ k : ℕ, 2 ≤ k → k ≤ 999 →
      texto_entero (k * 1000000) = convertir_grupo k ++ " MILLÓNES") ∧
    numero_a_letras 1000000 = "PESOS UN MILLÓN CON 00/100" := by
  refine ⟨by simp [numero_a_letras], ?_, numero_a_letras_forma_interna,
    centavos_bounds, texto_entero_un_millon, texto_entero_k_millones,
    numero_a_letras_un_millon⟩
  intro q hne
  rw [numero_a_letras_forma_interna q hne]
  simp only [String.append_assoc]
  exact append_pesos_ne_cero _

theorem numero_a_letras_forma_witness :
    numero_a_letras 3000000 = "PESOS TRES MILLÓNES CON 00/100" := by
  have hsh := numero_a_letras_forma.2.2.1 3000000 (by norm_num)
  have hk := numero_a_letras_forma.2.2.2.2.2.1 3 (by norm_num) (by norm_num)
  norm_num at hk
  rw [hsh, show qtrunc (3000000 : ℚ) = 3000000 by simp [qtrunc],
    show Int.toNat 3000000 = 3000000 from rfl,
    show ((3000000 : ℚ) - ((3000000 : ℕ) : ℚ)) * 100 = 0 by norm_num]
  rw [show roundHalfEven 0 = 0 by norm_num [roundHalfEven], pad02_zero, hk]
  rw [show convertir_grupo 3 = "TRES" by simp [convertir_grupo]; decide]
  decide

theorem numero_a_letras_999_eval :
    numero_a_letras (999 / 1000) = "PESOS  CON 100/100" := by
  have hne : (999 / 1000 : ℚ) ≠ 0 := by norm_num
  have htr : qtrunc (999 / 1000 : ℚ) = 0 := by
    rw [qtrunc_eq_floor _ (by norm_num)]
    norm_num
  rw [numero_a_letras_forma_interna _ hne, htr,
    show Int.toNat 0 = 0 from rfl, texto_entero_zero]
  norm_num
  have hrhe : roundHalfEven (999 / 10 : ℚ) = 100 := by
    have hfl : ⌊(999 / 10 : ℚ)⌋ = 99 := by norm_num
    unfold roundHalfEven
    rw [hfl]
    norm_num
  rw [hrhe, show pad02 100 = "100" by simp [pad02, natDigitsL, Nat.digits_def',
    dchar_eval0, dchar_eval1]]
  decide

/-- C5 counterexample: the claim as stated fails on the code in two ways.
At `numero = 0.999` the cents field is the three-character `"100"`, not a
two-digit cents part; and at `numero = 2000000` the plural is spelled
`"MILLÓNES"` (the code concatenates `' MILLÓN' + 'ES'`), not the claimed
`"MILLONES"`. -/
theorem numero_a_letras_claim_refuted :
    numero_a_letras (999 / 1000) = "PESOS  CON 100/100" ∧
    (¬ ∃ c : String, c.length = 2 ∧
      numero_a_letras (999 / 1000)
        = "PESOS " ++ texto_entero 0 ++ " CON " ++ c ++ "/100") ∧
    numero_a_letras 2000000 = "PESOS DOS MILLÓNES CON 00/100" ∧
    numero_a_letras 2000000 ≠ "PESOS DOS MILLONES CON 00/100" := by
  have h2M : numero_a_letras 2000000 = "PESOS DOS MILLÓNES CON 00/100" := by
    have hk := texto_entero_k_millones 2 (by norm_num) (by norm_num)
    norm_num at hk
    rw [numero_a_letras_forma_interna 2000000 (by norm_num),
      show qtrunc (2000000 : ℚ) = 2000000 by simp [qtrunc],
      show Int.toNat 2000000 = 2000000 from rfl,
      show ((2000000 : ℚ) - ((2000000 : ℕ) : ℚ)) * 100 = 0 by norm_num]
    rw [show roundHalfEven 0 = 0 by norm_num [roundHalfEven], pad02_zero, hk]
    rw [show convertir_grupo 2 = "DOS" by simp [convertir_grupo]; decide]
    decide
  refine ⟨numero_a_letras_999_eval, ?_, h2M, ?_⟩
  · rintro ⟨c, hlen, heq⟩
    rw [numero_a_letras_999_eval, texto_entero_zero] at heq
    have hl := congrArg String.length heq
    simp only [String.length_append] at hl
    rw [hlen] at hl
    rw [show ("PESOS  CON 100/100" : String).length = 18 from rfl,
      show ("PESOS " : String).length = 6 from rfl,
      show ("" : String).length = 0 from rfl,
      show (" CON " : String).length = 5 from rfl,
      show ("/100" : String).length = 4 from rfl] at hl
    omega
  · rw [h2M]
    decide

/-- C10: for `0 < v < 1` the integer part converts to the empty string, so
`numero_a_letras v` is `"PESOS  CON cc/100"` (two consecutive spaces
between `PESOS` and `CON`), never `"CERO PESOS"`, where `cc` is the
half-even rounding of `v * 100` zero-padded to width two. -/
theorem numero_a_letras_menor_que_uno :
    ∀ q : ℚ, 0 < q → q < 1 →
      numero_a_letras q
          = "PESOS  CON " ++ pad02 (roundHalfEven (q * 100)) ++ "/100" ∧
        numero_a_letras q ≠ "CERO PESOS" := by
  intro q h0 h1
  have hne : q ≠ 0 := ne_of_gt h0
  have hfl : ⌊q⌋ = 0 := Int.floor_eq_zero_iff.mpr ⟨le_of_lt h0, h1⟩
  have htr : qtrunc q = 0 := by rw [qtrunc_eq_floor q (le_of_lt h0), hfl]
  have hsh := numero_a_letras_forma_interna q hne
  rw [htr] at hsh
  norm_num at hsh
  rw [texto_entero_zero] at hsh
  rw [hsh]
  constructor
  · rw [show ("PESOS " ++ "" ++ " CON " : String) = "PESOS  CON " from by decide]
  · simp only [String.append_assoc]
    exact append_pesos_ne_cero _

theorem numero_a_letras_menor_que_uno_witness :
    numero_a_letras (1 / 2) = "PESOS  CON 50/100" := by
  have h := (numero_a_letras_menor_que_uno (1 / 2) (by norm_num) (by norm_num)).1
  rw [h, show (1 / 2 : ℚ) * 100 = 50 by norm_num]
  have hrhe : roundHalfEven (50 : ℚ) = 50 := by
    unfold roundHalfEven
    norm_num
  rw [hrhe, show pad02 50 = "50" by simp [pad02, natDigitsL, Nat.digits_def',
    dchar_eval0, dchar_eval5]]
  decide

theorem redondear_decimal_half_away_from_zero_witness :
    redondear_decimal (-(1235 / 1000)) 2 = -(124 / 100) := by
  have h := redondear_decimal_half_away_from_zero
  rw [h.2.2.2.1 (1235 / 1000) 2, h.2.2.1]

/-! ### Calendar dates (the fragment of `datetime.date` the source uses)

`days_in_month` (formatters.py:234-256) subtracts two `datetime.date`
values; the embedding reproduces CPython's proleptic-Gregorian ordinal
(`datetime._ymd2ord` built from `_days_before_year`, `_days_before_month`,
`_is_leap`, `_DAYS_IN_MONTH`). -/

structure Fecha where
  year : ℕ
  month : ℕ
  day : ℕ
deriving DecidableEq

/-- CPython `datetime._is_leap`. -/
def isLeapYear (y : ℕ) : Prop := y % 4 = 0 ∧ (y % 100 ≠ 0 ∨ y % 400 = 0)

instance (y : ℕ) : Decidable (isLeapYear y) := by
  unfold isLeapYear
  infer_instance

/-- CPython `datetime._days_in_month` (the true month length, used here
both as the validity bound for parsed dates and as the specification value
for the repository's `days_in_month`). -/
def diasEnMes (y m : ℕ) : ℕ :=
  if m = 2 ∧ isLeapYear y then 29
  else [0, 31, 28, 31, 30, 31, 30, 31, 31, 30, 31, 30, 31].getD m 0

/-- CPython `datetime._days_before_month`. -/
def diasAntesDeMes (y m : ℕ) : ℕ :=
  [0, 0, 31, 59, 90, 120, 151, 181, 212, 243, 273, 304, 334].getD m 0
    + if 2 < m ∧ isLeapYear y then 1 else 0

/-- CPython `datetime._days_before_year`. -/
def diasAntesDeAno (y : ℕ) : ℕ :=
  365 * (y - 1) + (y - 1) / 4 + (y - 1) / 400 - (y - 1) / 100

/-- CPython `datetime.date.toordinal` (`_ymd2ord`). -/
def toordinal (d : Fecha) : ℕ :=
  diasAntesDeAno d.year + diasAntesDeMes d.year d.month + d.day

/-- `days_in_month` (formatters.py:234-256): first day of the next month
minus first day of the current month, in days (`timedelta.days`). -/
def days_in_month (d : Fecha) : ℤ :=
  (toordinal (if d.month = 12 then ⟨d.year + 1, 1, 1⟩ else ⟨d.year, d.month + 1, 1⟩) : ℤ)
    - (toordinal ⟨d.year, d.month, 1⟩ : ℤ)

theorem diasAntesDeAno_succ (y : ℕ) (hy : 1 ≤ y) :
    diasAntesDeAno (y + 1)
      = diasAntesDeAno y + 365 + (if isLeapYear y then 1 else 0) := by
  unfold diasAntesDeAno
  by_cases hL : isLeapYear y
  · rw [if_pos hL]
    unfold isLeapYear at hL
    omega
  · rw [if_neg hL]
    unfold isLeapYear at hL
    by_cases h4 : y % 4 = 0
    · by_cases h100 : y % 100 = 0
      · by_cases h400 : y % 400 = 0
        · exact absurd ⟨h4, Or.inr h400⟩ hL
        · omega
      · exact absurd ⟨h4, Or.inl h100⟩ hL
    · omega

/-- C9: for every valid calendar date, `days_in_month` returns the true
length of the month containing it (leap years and the December rollover
included); in particular 29 for any date in February 2024 and 28 for any
date in February 2023. -/
theorem days_in_month_spec :
    (∀ y m day : ℕ, 1 ≤ y → 1 ≤ m → m ≤ 12 → 1 ≤ day → day ≤ diasEnMes y m →
      days_in_month ⟨y, m, day⟩ = diasEnMes y m) ∧
    (∀ day : ℕ, 1 ≤ day → day ≤ 29 → days_in_month ⟨2024, 2, day⟩ = 29) ∧
    (∀ day : ℕ, 1 ≤ day → day ≤ 28 → days_in_month ⟨2023, 2, day⟩ = 28) := by
  have hgen : ∀ y m day : ℕ, 1 ≤ y → 1 ≤ m → m ≤ 12 → 1 ≤ day →
      day ≤ diasEnMes y m → days_in_month ⟨y, m, day⟩ = diasEnMes y m := by
    intro y m day hy hm1 hm12 _ _
    by_cases h12 : m = 12
    · subst h12
      have e1 : days_in_month ⟨y, 12, day⟩
          = (toordinal ⟨y + 1, 1, 1⟩ : ℤ) - (toordinal ⟨y, 12, 1⟩ : ℤ) := by
        simp [days_in_month]
      rw [e1]
      unfold toordinal
      rw [diasAntesDeAno_succ y hy]
      unfold diasAntesDeMes diasEnMes
      by_cases hL : isLeapYear y <;> simp [hL, List.getD] <;> push_cast <;> omega
    · have hm : m < 12 := by omega
      have e2 : days_in_month ⟨y, m, day⟩
          = (toordinal ⟨y, m + 1, 1⟩ : ℤ) - (toordinal ⟨y, m, 1⟩ : ℤ) := by
        simp [days_in_month, h12]
      rw [e2]
      unfold toordinal diasAntesDeMes diasEnMes
      interval_cases m <;>
        by_cases hL : isLeapYear y <;> simp [hL, List.getD] <;> push_cast <;> omega
  refine ⟨hgen, ?_, ?_⟩
  · intro day h1 h29
    have h := hgen 2024 2 day (by norm_num) (by norm_num) (by norm_num) h1
      (by rw [show diasEnMes 2024 2 = 29 by decide]; exact h29)
    rw [h, show diasEnMes 2024 2 = 29 by decide]
    norm_num
  · intro day h1 h28
    have h := hgen 2023 2 day (by norm_num) (by norm_num) (by norm_num) h1
      (by rw [show diasEnMes 2023 2 = 28 by decide]; exact h28)
    rw [h, show diasEnMes 2023 2 = 28 by decide]
    norm_num

theorem days_in_month_spec_witness :
    days_in_month ⟨2024, 2, 15⟩ = 29 ∧ days_in_month ⟨2023, 2, 15⟩ = 28 :=
  ⟨days_in_month_spec.2.1 15 (by norm_num) (by norm_num),
   days_in_month_spec.2.2 15 (by norm_num) (by norm_num)⟩

/-! ### formato_moneda (formatters.py:25-46)

`f"$ {valor:,.2f}"` followed by the three `str.replace` calls.  The
format expression is modelled on exact rationals: round the value to two
fractional digits (ties to even, as IEEE formatting of the binary value
behaves on exact ties), render the integer part grouped in threes by `,`,
then a `.` and two fractional digits, with a leading `-` for negative
values.  `str.replace` with single-character arguments is a character
map (`pyReplaceChar`). -/

/-- Python `str.replace(a, b)` for one-character `a`, `b`. -/
def pyReplaceChar (s : List Char) (a b : Char) : List Char :=
  s.map fun c => if c = a then b else c

/-- Join chunks with a separator character, as `sep.join` does. -/
def joinSep (sep : Char) : List (List Char) → List Char
  | [] => []
  | [t] => t
  | t :: rest => t ++ sep :: joinSep sep rest

/-- Split into chunks of three from the front. -/
def chunk3 (l : List Char) : List (List Char) :=
  if l = [] then [] else l.take 3 :: chunk3 (l.drop 3)
termination_by l.length
decreasing_by
  simp_wf
  rename_i h
  have : l.length ≠ 0 := fun hl => h (List.eq_nil_of_length_eq_zero hl)
  omega

/-- Thousands grouping of a digit string (groups of three from the
right), as the `,` option of Python's format mini-language produces. -/
def pyGroup3 (ds : List Char) (sep : Char) : List Char :=
  (joinSep sep (chunk3 ds.reverse)).reverse

/-- Two fixed fractional digits (`c < 100`). -/
def pad2L (c : ℕ) : List Char :=
  if c < 10 then '0' :: natDigitsL c else natDigitsL c

/-- Python `f"{q:,.2f}"` on an exact value. -/
def pyFormatComma2f (q : ℚ) : List Char :=
  (if q < 0 then ['-'] else []) ++
    pyGroup3 (natDigitsL ((roundHalfEven (|q| * 100)).toNat / 100)) ',' ++
    '.' :: pad2L ((roundHalfEven (|q| * 100)).toNat % 100)

/-- `formato_moneda` (formatters.py:25-46) on a numeric argument:
`f"$ {valor:,.2f}".replace(",", "X").replace(".", ",").replace("X", ".")`. -/
def formato_moneda (valor : ℚ) : String :=
  String.mk ('$' :: ' ' ::
    pyReplaceChar (pyReplaceChar (pyReplaceChar (pyFormatComma2f valor) ',' 'X')
      '.' ',') 'X' '.')

/-- Specification-side renderer for C6: Argentine convention written
directly — `.` grouping the thousands, `,` before two fractional digits. -/
def formatoArgentino (q : ℚ) : List Char :=
  (if q < 0 then ['-'] else []) ++
    pyGroup3 (natDigitsL ((roundHalfEven (|q| * 100)).toNat / 100)) '.' ++
    ',' :: pad2L ((roundHalfEven (|q| * 100)).toNat % 100)

/-! ### limpiar_valor_monetario (formatters.py:292-324) -/

/-- Python whitespace (the characters `str.strip` removes). -/
def isSpaceC (c : Char) : Bool := c.toNat = 32 || (9 ≤ c.toNat && c.toNat ≤ 13)

/-- Python `str.strip()`. -/
def pyStrip (cs : List Char) : List Char :=
  ((cs.dropWhile isSpaceC).reverse.dropWhile isSpaceC).reverse

/-- Magnitude part of Python `float(str)` on plain decimal notation:
`digits`, `digits.digits`, `digits.` or `.digits`.  (The exponent,
infinity/nan and underscore-grouping forms accepted by CPython are not
modelled; no input in this development uses them.) -/
def pyFloatMag (cs : List Char) : Option ℚ :=
  let ip := cs.takeWhile isDigitC
  match cs.dropWhile isDigitC with
  | [] => if ip = [] then none else some ((valDigits ip : ℚ))
  | c :: fp =>
    if c = '.' ∧ fp.all isDigitC ∧ (ip ≠ [] ∨ fp ≠ []) then
      some ((valDigits ip : ℚ) + (valDigits fp : ℚ) / 10 ^ fp.length)
    else none

/-- Python `float(str)` (decimal notation, optional sign, surrounding
whitespace). -/
def pyFloat (cs : List Char) : Option ℚ :=
  match pyStrip cs with
  | [] => pyFloatMag []
  | c :: r =>
    if c = '-' then (pyFloatMag r).map (fun x => -x)
    else if c = '+' then pyFloatMag r
    else pyFloatMag (c :: r)

/-- `limpiar_valor_monetario` (formatters.py:292-324): strip `$` and
spaces, disambiguate `,`/`.`, and parse; any failure yields `0.0`. -/
def limpiar_valor_monetario (valor_str : String) : ℚ :=
  let limpio0 := (valor_str.data.filter (fun c => c ≠ '$')).filter (fun c => c ≠ ' ')
  let limpio1 := pyStrip limpio0
  let limpio2 :=
    if (',' ∈ limpio1) ∧ ('.' ∈ limpio1) then
      pyReplaceChar (limpio1.filter (fun c => c ≠ '.')) ',' '.'
    else if ',' ∈ limpio1 then pyReplaceChar limpio1 ',' '.'
    else limpio1
  match pyFloat limpio2 with
  | some x => x
  | none => 0

/-! ### The separator swap of formato_moneda -/

/-- Net effect of the `, → X`, `. → ,`, `X → .` replacement chain on a
string without `X`: exchange `,` and `.`. -/
def swapSep (c : Char) : Char :=
  if c = ',' then '.' else if c = '.' then ',' else c

theorem digit_ne (c : Char) (h : isDigitC c = true) (d : Char)
    (hd : ¬ (48 ≤ d.toNat ∧ d.toNat ≤ 57)) : c ≠ d := by
  intro hc
  subst hc
  simp [isDigitC] at h
  omega

theorem isSpaceC_of_digit (c : Char) (h : isDigitC c = true) :
    isSpaceC c = false := by
  simp [isDigitC] at h
  simp [isSpaceC]
  omega

theorem triple_replace_eq_map (l : List Char) (hX : ∀ c ∈ l, c ≠ 'X') :
    pyReplaceChar (pyReplaceChar (pyReplaceChar l ',' 'X') '.' ',') 'X' '.'
      = l.map swapSep := by
  unfold pyReplaceChar
  rw [List.map_map, List.map_map]
  apply List.map_congr_left
  intro c hc
  have hcx := hX c hc
  by_cases h1 : c = ','
  · subst h1; decide
  · by_cases h2 : c = '.'
    · subst h2; decide
    · simp [Function.comp, swapSep, h1, h2, hcx]

theorem map_id_of_mem {α : Type} (l : List α) (f : α → α)
    (h : ∀ c ∈ l, f c = c) : l.map f = l := by
  rw [List.map_congr_left h]
  simp

theorem map_swapSep_digits (l : List Char)
    (h : ∀ c ∈ l, isDigitC c = true) : l.map swapSep = l := by
  refine map_id_of_mem l swapSep fun c hc => ?_
  have h1 := digit_ne c (h c hc) ',' (by decide)
  have h2 := digit_ne c (h c hc) '.' (by decide)
  simp [swapSep, h1, h2]

theorem joinSep_map (f : Char → Char) (sep : Char) (L : List (List Char)) :
    (joinSep sep L).map f = joinSep (f sep) (L.map (List.map f)) := by
  induction L with
  | nil => rfl
  | cons t rest ih =>
    cases rest with
    | nil => simp [joinSep]
    | cons r rest2 =>
      simp only [joinSep, List.map_append, List.map_cons, ih]

theorem mem_joinSep (c sep : Char) (L : List (List Char))
    (h : c ∈ joinSep sep L) : c = sep ∨ ∃ t ∈ L, c ∈ t := by
  induction L with
  | nil => simp [joinSep] at h
  | cons t rest ih =>
    cases rest with
    | nil =>
      simp only [joinSep] at h
      exact Or.inr ⟨t, by simp, h⟩
    | cons r rest2 =>
      simp only [joinSep, List.mem_append, List.mem_cons] at h
      rcases h with h | h | h
      · exact Or.inr ⟨t, by simp, h⟩
      · exact Or.inl h
      · rcases ih h with h' | ⟨t', ht', hc⟩
        · exact Or.inl h'
        · exact Or.inr ⟨t', by simp [ht'], hc⟩

theorem sep_mem_joinSep (sep : Char) (t1 t2 : List Char)
    (rest : List (List Char)) : sep ∈ joinSep sep (t1 :: t2 :: rest) := by
  simp [joinSep]

theorem filter_ne_joinSep (sep : Char) (L : List (List Char))
    (h : ∀ t ∈ L, ∀ c ∈ t, c ≠ sep) :
    (joinSep sep L).filter (fun c => c ≠ sep) = L.join := by
  induction L with
  | nil => rfl
  | cons t rest ih =>
    have hfilt : t.filter (fun c => c ≠ sep) = t := by
      apply List.filter_eq_self.mpr
      intro c hc
      simpa using h t (by simp) c hc
    cases rest with
    | nil => simpa [joinSep] using hfilt
    | cons r rest2 =>
      simp only [joinSep, List.filter_append, List.filter_cons, List.join]
      rw [hfilt, ih (fun t' ht' => h t' (by simp [ht']))]
      simp

theorem chunk3_join (l : List Char) : (chunk3 l).join = l := by
  have key : ∀ (n : ℕ) (l : List Char), l.length ≤ n → (chunk3 l).join = l := by
    intro n
    induction n with
    | zero =>
      intro l hl
      have : l = [] := List.eq_nil_of_length_eq_zero (by omega)
      subst this
      rw [chunk3]
      simp
    | succ n ih =>
      intro l hl
      by_cases h : l = []
      · subst h
        rw [chunk3]
        simp
      · rw [chunk3, if_neg h]
        have hlen : l.length ≠ 0 := fun h0 => h (List.eq_nil_of_length_eq_zero h0)
        show List.take 3 l ++ (chunk3 (List.drop 3 l)).join = l
        rw [ih (l.drop 3) (by simp [List.length_drop]; omega)]
        exact List.take_append_drop 3 l
  exact key l.length l le_rfl

theorem mem_of_mem_chunk3 (c : Char) (t l : List Char) (ht : t ∈ chunk3 l)
    (hc : c ∈ t) : c ∈ l := by
  rw [← chunk3_join l]
  exact List.mem_join_of_mem ht hc

theorem chunk3_small (l : List Char) (h0 : l ≠ []) (h3 : l.length ≤ 3) :
    chunk3 l = [l] := by
  rw [chunk3, if_neg h0, List.take_all_of_le h3,
    List.drop_eq_nil_of_le h3, chunk3]
  simp

theorem mem_pyGroup3 (c : Char) (ds : List Char) (sep : Char)
    (h : c ∈ pyGroup3 ds sep) : c = sep ∨ c ∈ ds := by
  unfold pyGroup3 at h
  rw [List.mem_reverse] at h
  rcases mem_joinSep c sep _ h with h' | ⟨t, ht, hc⟩
  · exact Or.inl h'
  · exact Or.inr (List.mem_reverse.mp (mem_of_mem_chunk3 c t ds.reverse ht hc))

theorem pad2L_digits (n : ℕ) : ∀ c ∈ pad2L n, isDigitC c = true := by
  intro c hc
  unfold pad2L at hc
  split at hc
  · rcases List.mem_cons.mp hc with h | h
    · subst h; decide
    · exact mem_natDigitsL_isDigit n c h
  · exact mem_natDigitsL_isDigit n c hc

theorem mem_pyFormatComma2f (q : ℚ) (c : Char) (hc : c ∈ pyFormatComma2f q) :
    isDigitC c = true ∨ c = ',' ∨ c = '.' ∨ c = '-' := by
  unfold pyFormatComma2f at hc
  simp only [List.mem_append, List.mem_cons] at hc
  rcases hc with (hc | hc) | hc | hc
  · split at hc
    · simp at hc
      subst hc
      right; right; right; rfl
    · simp at hc
  · rcases mem_pyGroup3 c _ ',' hc with h | h
    · right; left; exact h
    · exact Or.inl (mem_natDigitsL_isDigit _ c h)
  · right; right; left; exact hc
  · exact Or.inl (pad2L_digits _ c hc)

theorem pyGroup3_swap (ds : List Char)
    (h : ∀ c ∈ ds, isDigitC c = true) :
    (pyGroup3 ds ',').map swapSep = pyGroup3 ds '.' := by
  unfold pyGroup3
  rw [List.map_reverse, joinSep_map]
  have hchunks : (chunk3 ds.reverse).map (List.map swapSep) = chunk3 ds.reverse := by
    apply map_id_of_mem
    intro t ht
    exact map_swapSep_digits t fun c hc =>
      h c (List.mem_reverse.mp (mem_of_mem_chunk3 c t ds.reverse ht hc))
  rw [hchunks]
  rfl

theorem pyFormatComma2f_swap (q : ℚ) :
    (pyFormatComma2f q).map swapSep = formatoArgentino q := by
  unfold pyFormatComma2f formatoArgentino
  rw [List.map_append, List.map_append, List.map_cons]
  rw [pyGroup3_swap (natDigitsL ((roundHalfEven (|q| * 100)).toNat / 100))
      (mem_natDigitsL_isDigit _),
    map_swapSep_digits (pad2L ((roundHalfEven (|q| * 100)).toNat % 100))
      (pad2L_digits _)]
  have hsign : (if q < 0 then ['-'] else []).map swapSep
      = (if q < 0 then ['-'] else []) := by
    split
    · decide
    · rfl
  rw [hsign, show swapSep '.' = ',' from by decide]

theorem noX_pyFormatComma2f (q : ℚ) : ∀ c ∈ pyFormatComma2f q, c ≠ 'X' := by
  intro c hc
  rcases mem_pyFormatComma2f q c hc with h | h | h | h
  · exact digit_ne c h 'X' (by decide)
  all_goals subst h; decide

/-- C6 refinement: the swap-based rendering of the source equals the
direct Argentine rendering. -/
theorem formato_moneda_refina (q : ℚ) :
    formato_moneda q = "$ " ++ String.mk (formatoArgentino q) := by
  unfold formato_moneda
  rw [triple_replace_eq_map _ (noX_pyFormatComma2f q), pyFormatComma2f_swap]
  rfl

theorem roundHalfEven_intCast (n : ℤ) : roundHalfEven ((n : ℤ) : ℚ) = n := by
  unfold roundHalfEven
  rw [Int.floor_intCast]
  norm_num

theorem roundHalfEven_natCast (n : ℕ) :
    roundHalfEven ((n : ℕ) : ℚ) = (n : ℤ) := by
  rw [show ((n : ℕ) : ℚ) = ((n : ℤ) : ℚ) by push_cast; ring, roundHalfEven_intCast]

/-- C6: `formato_moneda` renders every value in Argentine convention:
`.` as thousands separator, `,` as decimal separator, two fractional
digits, prefixed by `"$ "` (the separator-swap implementation refines the
direct Argentine rendering `formatoArgentino`); in particular
`1234567.89 ↦ "$ 1.234.567,89"` and `0 ↦ "$ 0,00"`. -/
theorem formato_moneda_convencion_argentina :
    (∀ q : ℚ, formato_moneda q = "$ " ++ String.mk (formatoArgentino q)) ∧
    formato_moneda (123456789 / 100) = "$ 1.234.567,89" ∧
    formato_moneda 0 = "$ 0,00" := by
  refine ⟨formato_moneda_refina, ?_, ?_⟩
  · rw [formato_moneda_refina]
    have h1 : (roundHalfEven (|(123456789 / 100 : ℚ)| * 100)).toNat = 123456789 := by
      rw [show |(123456789 / 100 : ℚ)| * 100 = ((123456789 : ℕ) : ℚ) by
          rw [abs_of_nonneg (by norm_num)]; norm_num,
        roundHalfEven_natCast]
      rfl
    have hds : natDigitsL 1234567 = ['1', '2', '3', '4', '5', '6', '7'] := by
      simp [natDigitsL, Nat.digits_def', dchar_eval1, dchar_eval2, dchar_eval3,
        dchar_eval4, dchar_eval5, dchar_eval6, dchar_eval7]
    unfold formatoArgentino
    rw [if_neg (by norm_num), h1, show (123456789 : ℕ) / 100 = 1234567 from rfl,
      show (123456789 : ℕ) % 100 = 89 from rfl, hds]
    have hpad : pad2L 89 = ['8', '9'] := by
      simp [pad2L, natDigitsL, Nat.digits_def', dchar_eval8, dchar_eval9]
    rw [hpad]
    have hgrp : pyGroup3 ['1', '2', '3', '4', '5', '6', '7'] '.'
        = ['1', '.', '2', '3', '4', '.', '5', '6', '7'] := by
      unfold pyGroup3
      rw [show (['1', '2', '3', '4', '5', '6', '7'] : List Char).reverse
          = ['7', '6', '5', '4', '3', '2', '1'] from rfl]
      rw [chunk3, if_neg (by decide), chunk3, if_neg (by decide), chunk3,
        if_neg (by decide), chunk3, if_pos (by decide)]
      rfl
    rw [hgrp]
    decide
  · rw [formato_moneda_refina]
    have h1 : (roundHalfEven (|(0 : ℚ)| * 100)).toNat = 0 := by
      rw [show |(0 : ℚ)| * 100 = ((0 : ℕ) : ℚ) by norm_num, roundHalfEven_natCast]
      rfl
    unfold formatoArgentino
    rw [if_neg (by norm_num), h1]
    have hds : natDigitsL (0 / 100) = ['0'] := by simp [natDigitsL]
    have hpad : pad2L (0 % 100) = ['0', '0'] := by simp [pad2L, natDigitsL]
    rw [hds, hpad]
    have hgrp : pyGroup3 ['0'] '.' = ['0'] := by
      simp [pyGroup3, chunk3, joinSep]
    rw [hgrp]
    decide

/-! ### Round trip: limpiar_valor_monetario after formato_moneda (C3) -/

theorem dropWhile_eq_self_of (l : List Char) (p : Char → Bool)
    (h : ∀ c ∈ l, p c = false) : l.dropWhile p = l := by
  cases l with
  | nil => rfl
  | cons a t => rw [List.dropWhile_cons, if_neg (by simp [h a (by simp)])]

theorem pyStrip_eq_self (l : List Char) (h : ∀ c ∈ l, isSpaceC c = false) :
    pyStrip l = l := by
  unfold pyStrip
  rw [dropWhile_eq_self_of l _ h,
    dropWhile_eq_self_of _ _ (fun c hc => h c (List.mem_reverse.mp hc)),
    List.reverse_reverse]

theorem takeWhile_append_all (p : Char → Bool) (ip : List Char)
    (hip : ∀ c ∈ ip, p c = true) (x : Char) (hx : p x = false)
    (rest : List Char) :
    (ip ++ x :: rest).takeWhile p = ip ∧
      (ip ++ x :: rest).dropWhile p = x :: rest := by
  induction ip with
  | nil => simp [List.takeWhile_cons, List.dropWhile_cons, hx]
  | cons a t ih =>
    have ha : p a = true := hip a (by simp)
    have iht := ih (fun c hc => hip c (by simp [hc]))
    constructor
    · simpa [List.takeWhile_cons, ha] using iht.1
    · simpa [List.dropWhile_cons, ha] using iht.2

theorem pyFloatMag_digits_dot (ip fp : List Char)
    (hip : ∀ c ∈ ip, isDigitC c = true) (hne : ip ≠ [])
    (hfp : ∀ c ∈ fp, isDigitC c = true) :
    pyFloatMag (ip ++ '.' :: fp)
      = some ((valDigits ip : ℚ) + (valDigits fp : ℚ) / 10 ^ fp.length) := by
  have h := takeWhile_append_all isDigitC ip hip '.' (by decide) fp
  unfold pyFloatMag
  rw [h.2]
  simp only [h.1]
  simp [List.all_eq_true.mpr hfp, hne]

theorem pyFloat_digits_dot (ip fp : List Char)
    (hip : ∀ c ∈ ip, isDigitC c = true) (hne : ip ≠ [])
    (hfp : ∀ c ∈ fp, isDigitC c = true) :
    pyFloat (ip ++ '.' :: fp)
      = some ((valDigits ip : ℚ) + (valDigits fp : ℚ) / 10 ^ fp.length) := by
  have hnospace : ∀ c ∈ ip ++ '.' :: fp, isSpaceC c = false := by
    intro c hc
    rcases List.mem_append.mp hc with h | h
    · exact isSpaceC_of_digit c (hip c h)
    · rcases List.mem_cons.mp h with h | h
      · subst h; decide
      · exact isSpaceC_of_digit c (hfp c h)
  unfold pyFloat
  rw [pyStrip_eq_self _ hnospace]
  obtain ⟨a, t, hat⟩ : ∃ a t, ip = a :: t := by
    cases ip with
    | nil => exact absurd rfl hne
    | cons a t => exact ⟨a, t, rfl⟩
  have hd : isDigitC a = true := hip a (by simp [hat])
  rw [hat]
  simp only [List.cons_append]
  rw [if_neg (digit_ne a hd '-' (by decide)), if_neg (digit_ne a hd '+' (by decide))]
  rw [← List.cons_append, ← hat]
  exact pyFloatMag_digits_dot ip fp hip hne hfp

theorem takeWhile_all_eq (p : Char → Bool) (l : List Char)
    (h : ∀ c ∈ l, p c = true) :
    l.takeWhile p = l ∧ l.dropWhile p = [] := by
  induction l with
  | nil => exact ⟨rfl, rfl⟩
  | cons a t ih =>
    have ha : p a = true := h a (by simp)
    have iht := ih (fun c hc => h c (by simp [hc]))
    constructor
    · simpa [List.takeWhile_cons, ha] using iht.1
    · simpa [List.dropWhile_cons, ha] using iht.2

theorem pyFloatMag_digits (ip : List Char)
    (hip : ∀ c ∈ ip, isDigitC c = true) (hne : ip ≠ []) :
    pyFloatMag ip = some ((valDigits ip : ℚ)) := by
  have h := takeWhile_all_eq isDigitC ip hip
  unfold pyFloatMag
  rw [h.2]
  simp only [h.1]
  rw [if_neg hne]

theorem pyFloat_digits (ip : List Char)
    (hip : ∀ c ∈ ip, isDigitC c = true) (hne : ip ≠ []) :
    pyFloat ip = some ((valDigits ip : ℚ)) := by
  unfold pyFloat
  rw [pyStrip_eq_self _ (fun c hc => isSpaceC_of_digit c (hip c hc))]
  obtain ⟨a, t, hat⟩ : ∃ a t, ip = a :: t := by
    cases ip with
    | nil => exact absurd rfl hne
    | cons a t => exact ⟨a, t, rfl⟩
  have hd : isDigitC a = true := hip a (by simp [hat])
  rw [hat]
  show (if a = '-' then Option.map (fun x => -x) (pyFloatMag t)
      else if a = '+' then pyFloatMag t else pyFloatMag (a :: t))
    = some ((valDigits (a :: t) : ℚ))
  rw [if_neg (digit_ne a hd '-' (by decide)), if_neg (digit_ne a hd '+' (by decide))]
  rw [← hat]
  exact pyFloatMag_digits ip hip hne

theorem filter_reverse_eq (p : Char → Bool) (l : List Char) :
    l.reverse.filter p = (l.filter p).reverse := by
  induction l with
  | nil => rfl
  | cons a t ih =>
    by_cases h : p a <;>
      simp [List.reverse_cons, List.filter_append, List.filter_cons, h, ih]

theorem pyGroup3_small (ds : List Char) (sep : Char) (h0 : ds ≠ [])
    (h3 : ds.length ≤ 3) : pyGroup3 ds sep = ds := by
  unfold pyGroup3
  rw [chunk3_small _ (by simpa) (by simpa),
    show joinSep sep [ds.reverse] = ds.reverse from rfl, List.reverse_reverse]

theorem pyGroup3_sep_mem (ds : List Char) (sep : Char) (h : 4 ≤ ds.length) :
    sep ∈ pyGroup3 ds sep := by
  unfold pyGroup3
  rw [List.mem_reverse]
  have hrev : 4 ≤ ds.reverse.length := by simpa
  have h0 : ds.reverse ≠ [] := by
    intro he; rw [he] at hrev; simp at hrev
  rw [chunk3, if_neg h0]
  have hdrop : ds.reverse.drop 3 ≠ [] := by
    intro he
    have := congrArg List.length he
    simp [List.length_drop] at this
    omega
  rw [chunk3, if_neg hdrop]
  exact sep_mem_joinSep sep _ _ _

theorem filter_pyGroup3 (ds : List Char) (sep : Char)
    (h : ∀ c ∈ ds, c ≠ sep) :
    (pyGroup3 ds sep).filter (fun c => c ≠ sep) = ds := by
  unfold pyGroup3
  rw [filter_reverse_eq, filter_ne_joinSep sep _
    (fun t ht c hc => h c (List.mem_reverse.mp (mem_of_mem_chunk3 c t _ ht hc))),
    chunk3_join, List.reverse_reverse]

theorem natDigitsL_length_le_iff (n k : ℕ) (hk : 1 ≤ k) :
    (natDigitsL n).length ≤ k ↔ n < 10 ^ k := by
  by_cases h : n = 0
  · subst h
    simp only [natDigitsL, if_pos rfl, List.length_singleton]
    constructor
    · intro _; exact Nat.pos_pow_of_pos k (by norm_num)
    · intro _; exact hk
  · rw [natDigitsL, if_neg h]
    simp only [List.length_reverse, List.length_map]
    rw [Nat.digits_len 10 n (by norm_num) h]
    constructor
    · intro hle
      exact (Nat.lt_pow_iff_log_lt (by norm_num) h).mpr (by omega)
    · intro hlt
      have := (Nat.lt_pow_iff_log_lt (by norm_num) h).mp hlt
      omega

theorem pad2L_spec (c : ℕ) (h : c < 100) :
    (pad2L c).length = 2 ∧ valDigits (pad2L c) = c := by
  unfold pad2L
  by_cases h10 : c < 10
  · rw [if_pos h10]
    by_cases h0 : c = 0
    · subst h0
      constructor
      · rfl
      · decide
    · have hdig : Nat.digits 10 c = [c] := by
        rw [Nat.digits_def' (by norm_num : (1:ℕ) < 10) (by omega)]
        rw [Nat.mod_eq_of_lt h10, Nat.div_eq_of_lt h10]
        simp
      rw [natDigitsL, if_neg h0, hdig]
      refine ⟨rfl, ?_⟩
      simp [valDigits, dchar_toNat c (by omega)]
  · rw [if_neg h10]
    have hdiv : 0 < c / 10 := by omega
    have hdig : Nat.digits 10 c = [c % 10, c / 10] := by
      rw [Nat.digits_def' (by norm_num : (1:ℕ) < 10) (by omega),
        Nat.digits_def' (by norm_num : (1:ℕ) < 10) hdiv]
      have : c / 10 / 10 = 0 := by omega
      have h2 : c / 10 % 10 = c / 10 := by omega
      rw [this, h2]
      simp
    rw [natDigitsL, if_neg (by omega), hdig]
    refine ⟨rfl, ?_⟩
    simp [valDigits, dchar_toNat (c % 10) (by omega), dchar_toNat (c / 10) (by omega)]
    omega

theorem formato_moneda_data (q : ℚ) :
    (formato_moneda q).data = '$' :: ' ' :: formatoArgentino q := by
  unfold formato_moneda
  rw [triple_replace_eq_map _ (noX_pyFormatComma2f q), pyFormatComma2f_swap]

theorem mem_formatoArgentino_nonneg (q : ℚ) (hq : ¬ q < 0) :
    ∀ c ∈ formatoArgentino q, isDigitC c = true ∨ c = '.' ∨ c = ',' := by
  intro c hc
  unfold formatoArgentino at hc
  rw [if_neg hq] at hc
  simp only [List.nil_append, List.mem_append, List.mem_cons] at hc
  rcases hc with hc | hc | hc
  · rcases mem_pyGroup3 c _ '.' hc with h | h
    · right; left; exact h
    · left; exact mem_natDigitsL_isDigit _ c h
  · right; right; exact hc
  · left; exact pad2L_digits _ c hc

theorem limpiar_formato_roundtrip_exact (q : ℚ) (hq : 0 ≤ q)
    (hden : (100 * q).den = 1) :
    limpiar_valor_monetario (formato_moneda q) = q := by
  have hnum0 : 0 ≤ (100 * q).num :=
    Rat.num_nonneg.mpr (mul_nonneg (by norm_num) hq)
  set N : ℕ := (100 * q).num.toNat with hNdef
  have hNq : ((N : ℕ) : ℚ) = 100 * q := by
    have h1 : ((N : ℕ) : ℤ) = (100 * q).num := by
      rw [hNdef]; exact Int.toNat_of_nonneg hnum0
    calc ((N : ℕ) : ℚ) = (((N : ℕ) : ℤ) : ℚ) := by push_cast; ring
      _ = (((100 * q).num : ℤ) : ℚ) := by rw [h1]
      _ = 100 * q := Rat.coe_int_num_of_den_eq_one hden
  have hq0 : ¬ q < 0 := not_lt.mpr hq
  have habs : |q| * 100 = ((N : ℕ) : ℚ) := by
    rw [abs_of_nonneg hq, hNq]; ring
  have hrheN : (roundHalfEven (|q| * 100)).toNat = N := by
    rw [habs, roundHalfEven_natCast]
    simp
  set ds := natDigitsL (N / 100) with hds
  set pad := pad2L (N % 100) with hpad
  have hds_digits : ∀ c ∈ ds, isDigitC c = true := mem_natDigitsL_isDigit _
  have hpad_digits : ∀ c ∈ pad, isDigitC c = true := pad2L_digits _
  have hfa : formatoArgentino q = pyGroup3 ds '.' ++ ',' :: pad := by
    unfold formatoArgentino
    rw [if_neg hq0, hrheN]
    simp
  set body := pyGroup3 ds '.' ++ ',' :: pad with hbody
  have hmem : ∀ c ∈ body, isDigitC c = true ∨ c = '.' ∨ c = ',' := by
    have h := mem_formatoArgentino_nonneg q hq0
    rw [hfa] at h
    exact h
  have hdata : (formato_moneda q).data = '$' :: ' ' :: body := by
    rw [formato_moneda_data, hfa]
  -- the two cleaning filters leave the body unchanged
  have hje : ∀ c ∈ body, c ≠ '$' ∧ c ≠ ' ' := by
    intro c hc
    rcases hmem c hc with h | h | h
    · exact ⟨digit_ne c h '$' (by decide), digit_ne c h ' ' (by decide)⟩
    · subst h; exact ⟨by decide, by decide⟩
    · subst h; exact ⟨by decide, by decide⟩
  have hf1 : (('$' :: ' ' :: body).filter (fun c => c ≠ '$')).filter
      (fun c => c ≠ ' ') = body := by
    have e1 : body.filter (fun c => c ≠ '$') = body :=
      List.filter_eq_self.mpr (fun c hc => by simp [(hje c hc).1])
    have e2 : body.filter (fun c => c ≠ ' ') = body :=
      List.filter_eq_self.mpr (fun c hc => by simp [(hje c hc).2])
    simp [List.filter_cons, e1, e2]
    intro a ha
    exact ⟨(hje a ha).2, (hje a ha).1⟩
  have hstrip : pyStrip body = body := by
    apply pyStrip_eq_self
    intro c hc
    rcases hmem c hc with h | h | h
    · exact isSpaceC_of_digit c h
    · subst h; decide
    · subst h; decide
  have hcomma : ',' ∈ body := by
    rw [hbody]
    exact List.mem_append.mpr (Or.inr (by simp))
  -- core parse value
  have hNmod : N % 100 < 100 := Nat.mod_lt _ (by norm_num)
  have hvalds : valDigits ds = N / 100 := valDigits_natDigitsL _
  have hvalpad : valDigits pad = N % 100 := (pad2L_spec _ hNmod).2
  have hlenpad : pad.length = 2 := (pad2L_spec _ hNmod).1
  have hval : (valDigits ds : ℚ) + (valDigits pad : ℚ) / 10 ^ pad.length = q := by
    rw [hvalds, hvalpad, hlenpad]
    have hsplit : 100 * (N / 100) + N % 100 = N := Nat.div_add_mod N 100
    have hsplitQ : 100 * ((N / 100 : ℕ) : ℚ) + ((N % 100 : ℕ) : ℚ) = ((N : ℕ) : ℚ) := by
      exact_mod_cast congrArg (fun m : ℕ => (m : ℚ)) hsplit
    rw [hNq] at hsplitQ
    have h100 : ((10 : ℚ) ^ 2) = 100 := by norm_num
    rw [h100]
    linarith
  have hfinal : pyFloat (ds ++ '.' :: pad) = some q := by
    rw [pyFloat_digits_dot ds pad hds_digits (natDigitsL_ne_nil _) hpad_digits,
      hval]
  have hrep : pyReplaceChar (ds ++ ',' :: pad) ',' '.' = ds ++ '.' :: pad := by
    unfold pyReplaceChar
    rw [List.map_append, List.map_cons]
    rw [map_id_of_mem ds _ (fun c hc => by
        rw [if_neg (digit_ne c (hds_digits c hc) ',' (by decide))]),
      map_id_of_mem pad _ (fun c hc => by
        rw [if_neg (digit_ne c (hpad_digits c hc) ',' (by decide))])]
    simp
  -- now run limpiar
  simp only [limpiar_valor_monetario, hdata, hf1, hstrip]
  by_cases hbig : 1000 ≤ N / 100
  · have hlen4 : 4 ≤ ds.length := by
      by_contra hcon
      have h3 : ds.length ≤ 3 := by omega
      have := (natDigitsL_length_le_iff (N / 100) 3 (by norm_num)).mp h3
      omega
    have hdot : '.' ∈ body :=
      List.mem_append.mpr (Or.inl (pyGroup3_sep_mem ds '.' hlen4))
    rw [if_pos ⟨hcomma, hdot⟩]
    have hfd : body.filter (fun c => c ≠ '.') = ds ++ ',' :: pad := by
      rw [hbody, List.filter_append,
        filter_pyGroup3 ds '.'
          (fun c hc => digit_ne c (hds_digits c hc) '.' (by decide))]
      congr 1
      rw [List.filter_cons]
      have e : pad.filter (fun c => c ≠ '.') = pad :=
        List.filter_eq_self.mpr (fun c hc => by
          simp [digit_ne c (hpad_digits c hc) '.' (by decide)])
      simp [e]
      intro a ha
      exact digit_ne a (hpad_digits a ha) '.' (by decide)
    rw [hfd, hrep, hfinal]
  · have h3 : ds.length ≤ 3 :=
      (natDigitsL_length_le_iff (N / 100) 3 (by norm_num)).mpr (by omega)
    have hsmall : pyGroup3 ds '.' = ds :=
      pyGroup3_small ds '.' (natDigitsL_ne_nil _) h3
    have hnodot : ¬ '.' ∈ body := by
      rw [hbody, hsmall]
      intro hc
      rcases List.mem_append.mp hc with h | h
      · have := hds_digits '.' h; revert this; decide
      · rcases List.mem_cons.mp h with h | h
        · exact absurd h (by decide)
        · have := hpad_digits '.' h; revert this; decide
    rw [if_neg (fun hand => hnodot hand.2), if_pos hcomma]
    rw [hbody, hsmall, hrep, hfinal]

/-- C3: for every non-negative value with at most two decimal digits,
cleaning the formatted currency string returns the value exactly (hence
within one cent), and the separator disambiguation behaves as specified:
both separators mean Argentine convention, a lone comma is the decimal
separator, a lone dot (or no separator) parses directly. -/
theorem limpiar_formato_moneda_roundtrip :
    (∀ q : ℚ, 0 ≤ q → (100 * q).den = 1 →
      limpiar_valor_monetario (formato_moneda q) = q ∧
      |limpiar_valor_monetario (formato_moneda q) - q| ≤ 1 / 100) ∧
    limpiar_valor_monetario "$ 1.234,56" = 123456 / 100 ∧
    limpiar_valor_monetario "1234,56" = 123456 / 100 ∧
    limpiar_valor_monetario "$1234.56" = 123456 / 100 ∧
    limpiar_valor_monetario "1234" = 1234 := by
  have hv4 : valDigits ['1', '2', '3', '4'] = 1234 := by decide
  have hv2 : valDigits ['5', '6'] = 56 := by decide
  have heval : (match pyFloat ['1', '2', '3', '4', '.', '5', '6'] with
      | some x => x | none => (0 : ℚ)) = 123456 / 100 := by
    rw [show (['1', '2', '3', '4', '.', '5', '6'] : List Char)
        = ['1', '2', '3', '4'] ++ '.' :: ['5', '6'] from rfl,
      pyFloat_digits_dot ['1', '2', '3', '4'] ['5', '6'] (by decide) (by decide)
        (by decide)]
    show (valDigits ['1', '2', '3', '4'] : ℚ)
        + (valDigits ['5', '6'] : ℚ) / 10 ^ (['5', '6'] : List Char).length
        = 123456 / 100
    rw [hv4, hv2]
    norm_num
  refine ⟨fun q hq hd => ⟨limpiar_formato_roundtrip_exact q hq hd, ?_⟩,
    ?_, ?_, ?_, ?_⟩
  · rw [limpiar_formato_roundtrip_exact q hq hd]
    simp
  · rw [show limpiar_valor_monetario "$ 1.234,56"
        = (match pyFloat ['1', '2', '3', '4', '.', '5', '6'] with
           | some x => x | none => (0 : ℚ)) from rfl, heval]
  · rw [show limpiar_valor_monetario "1234,56"
        = (match pyFloat ['1', '2', '3', '4', '.', '5', '6'] with
           | some x => x | none => (0 : ℚ)) from rfl, heval]
  · rw [show limpiar_valor_monetario "$1234.56"
        = (match pyFloat ['1', '2', '3', '4', '.', '5', '6'] with
           | some x => x | none => (0 : ℚ)) from rfl, heval]
  · rw [show limpiar_valor_monetario "1234"
        = (match pyFloat ['1', '2', '3', '4'] with
           | some x => x | none => (0 : ℚ)) from rfl,
      pyFloat_digits ['1', '2', '3', '4'] (by decide) (by decide)]
    show (valDigits ['1', '2', '3', '4'] : ℚ) = 1234
    rw [hv4]
    norm_num

theorem limpiar_formato_moneda_roundtrip_witness :
    limpiar_valor_monetario (formato_moneda (123456 / 100)) = 123456 / 100 := by
  have h := (limpiar_formato_moneda_roundtrip.1 (123456 / 100) (by norm_num)
    (by norm_num)).1
  exact h

/-! ### safe_parse_date (formatters.py:49-135)

The format loop calls `datetime.strptime(s, f)` for each format in order.
CPython's `_strptime` compiles a format to a regex (each directive an
ordered alternation, literal whitespace mapped to `\s+`), takes the first
backtracking match of that regex as a prefix of the input, fails the
format if unconverted characters remain, and then builds a `datetime`
(which validates the field combination, e.g. day against month length).
The embedding reproduces exactly that: `stepTok` lists a directive's
alternatives in the regex's alternation order, `runToks` enumerates
complete pattern matches in backtracking (depth-first) order, and
`matchFmt` takes the first one and then requires the remainder to be
empty.  The directive character classes below are CPython's
(`TimeRE`): `%d` is `3[01]|[12]\d|0[1-9]|[1-9]`, `%m` is
`1[0-2]|0[1-9]|[1-9]`, `%Y` is `\d{4}`, `%H` is `2[0-3]|[0-1]\d|\d`,
`%M` is `[0-5]\d|\d`, `%S` is `6[0-1]|[0-5]\d|\d`, and `%B`/`%b` are the
month names of the default C locale (English), matched case-insensitively
longest-first. -/

inductive Tok where
  | lit (c : Char)
  | ws
  | D
  | M
  | Y
  | H
  | Mi
  | S
  | B
  | Bb

structure Caps where
  year : ℕ := 1900
  month : ℕ := 1
  day : ℕ := 1
  hour : ℕ := 0
  minute : ℕ := 0
  second : ℕ := 0
deriving DecidableEq

def cval (c : Char) : ℕ := c.toNat - 48

/-- `%d`: `3[01]|[12]\d|0[1-9]|[1-9]`, alternatives in regex order. -/
def stepD (cs : List Char) : List (ℕ × List Char) :=
  (match cs with
   | c1 :: c2 :: rest =>
     (if c1 = '3' ∧ (c2 = '0' ∨ c2 = '1') then [(30 + cval c2, rest)] else []) ++
     (if (c1 = '1' ∨ c1 = '2') ∧ isDigitC c2 then [(cval c1 * 10 + cval c2, rest)] else []) ++
     (if c1 = '0' ∧ isDigitC c2 ∧ c2 ≠ '0' then [(cval c2, rest)] else [])
   | _ => []) ++
  (match cs with
   | c1 :: rest => if isDigitC c1 ∧ c1 ≠ '0' then [(cval c1, rest)] else []
   | _ => [])

/-- `%m`: `1[0-2]|0[1-9]|[1-9]`. -/
def stepM (cs : List Char) : List (ℕ × List Char) :=
  (match cs with
   | c1 :: c2 :: rest =>
     (if c1 = '1' ∧ (c2 = '0' ∨ c2 = '1' ∨ c2 = '2') then [(10 + cval c2, rest)] else []) ++
     (if c1 = '0' ∧ isDigitC c2 ∧ c2 ≠ '0' then [(cval c2, rest)] else [])
   | _ => []) ++
  (match cs with
   | c1 :: rest => if isDigitC c1 ∧ c1 ≠ '0' then [(cval c1, rest)] else []
   | _ => [])

/-- `%Y`: exactly four digits. -/
def stepY (cs : List Char) : List (ℕ × List Char) :=
  match cs with
  | c1 :: c2 :: c3 :: c4 :: rest =>
    if isDigitC c1 ∧ isDigitC c2 ∧ isDigitC c3 ∧ isDigitC c4 then
      [(((cval c1 * 10 + cval c2) * 10 + cval c3) * 10 + cval c4, rest)]
    else []
  | _ => []

/-- `%H`: `2[0-3]|[0-1]\d|\d`. -/
def stepH (cs : List Char) : List (ℕ × List Char) :=
  (match cs with
   | c1 :: c2 :: rest =>
     (if c1 = '2' ∧ (48 ≤ c2.toNat ∧ c2.toNat ≤ 51) then [(20 + cval c2, rest)] else []) ++
     (if (c1 = '0' ∨ c1 = '1') ∧ isDigitC c2 then [(cval c1 * 10 + cval c2, rest)] else [])
   | _ => []) ++
  (match cs with
   | c1 :: rest => if isDigitC c1 then [(cval c1, rest)] else []
   | _ => [])

/-- `%M`: `[0-5]\d|\d`. -/
def stepMi (cs : List Char) : List (ℕ × List Char) :=
  (match cs with
   | c1 :: c2 :: rest =>
     if (48 ≤ c1.toNat ∧ c1.toNat ≤ 53) ∧ isDigitC c2 then
       [(cval c1 * 10 + cval c2, rest)]
     else []
   | _ => []) ++
  (match cs with
   | c1 :: rest => if isDigitC c1 then [(cval c1, rest)] else []
   | _ => [])

/-- `%S`: `6[0-1]|[0-5]\d|\d`. -/
def stepS (cs : List Char) : List (ℕ × List Char) :=
  (match cs with
   | c1 :: c2 :: rest =>
     (if c1 = '6' ∧ (c2 = '0' ∨ c2 = '1') then [(60 + cval c2, rest)] else []) ++
     (if (48 ≤ c1.toNat ∧ c1.toNat ≤ 53) ∧ isDigitC c2 then [(cval c1 * 10 + cval c2, rest)] else [])
   | _ => []) ++
  (match cs with
   | c1 :: rest => if isDigitC c1 then [(cval c1, rest)] else []
   | _ => [])

/-- ASCII lowercasing, for the case-insensitive month-name match. -/
def lowerC (c : Char) : Char :=
  if 65 ≤ c.toNat ∧ c.toNat ≤ 90 then Char.ofNat (c.toNat + 32) else c

def matchName : List Char → List Char → Option (List Char)
  | [], cs => some cs
  | _ :: _, [] => none
  | n :: ns, c :: rest => if lowerC c = n then matchName ns rest else none

/-- C-locale English month names, longest first (CPython sorts the
alternation by length, stable). -/
def monthNamesFull : List (ℕ × List Char) :=
  [(9, "september".data), (2, "february".data), (11, "november".data),
   (12, "december".data), (1, "january".data), (10, "october".data),
   (8, "august".data), (3, "march".data), (4, "april".data),
   (6, "june".data), (7, "july".data), (5, "may".data)]

def monthNamesAbbr : List (ℕ × List Char) :=
  [(1, "jan".data), (2, "feb".data), (3, "mar".data), (4, "apr".data),
   (5, "may".data), (6, "jun".data), (7, "jul".data), (8, "aug".data),
   (9, "sep".data), (10, "oct".data), (11, "nov".data), (12, "dec".data)]

def stepB (names : List (ℕ × List Char)) (cs : List Char) : List (ℕ × List Char) :=
  names.bind fun p =>
    match matchName p.2 cs with
    | some rest => [(p.1, rest)]
    | none => []

/-- One directive or literal of a compiled format: the list of
(updated captures, remaining input) pairs, in the regex's backtracking
order. -/
def stepTok : Tok → Caps → List Char → List (Caps × List Char)
  | .lit c, caps, cs =>
    match cs with
    | c1 :: rest => if c1 = c then [(caps, rest)] else []
    | [] => []
  | .ws, caps, cs =>
    -- `\s+`, greedy: longest run first, then shorter, at least one
    let w := (cs.takeWhile isSpaceC).length
    (List.range w).map fun i => (caps, cs.drop (w - i))
  | .D, caps, cs => (stepD cs).map fun p => ({caps with day := p.1}, p.2)
  | .M, caps, cs => (stepM cs).map fun p => ({caps with month := p.1}, p.2)
  | .Y, caps, cs => (stepY cs).map fun p => ({caps with year := p.1}, p.2)
  | .H, caps, cs => (stepH cs).map fun p => ({caps with hour := p.1}, p.2)
  | .Mi, caps, cs => (stepMi cs).map fun p => ({caps with minute := p.1}, p.2)
  | .S, caps, cs => (stepS cs).map fun p => ({caps with second := p.1}, p.2)
  | .B, caps, cs => (stepB monthNamesFull cs).map fun p => ({caps with month := p.1}, p.2)
  | .Bb, caps, cs => (stepB monthNamesAbbr cs).map fun p => ({caps with month := p.1}, p.2)

def runToks : List Tok → Caps → List Char → List (Caps × List Char)
  | [], caps, cs => [(caps, cs)]
  | t :: ts, caps, cs => (stepTok t caps cs).bind fun p => runToks ts p.1 p.2

/-- The first backtracking match of the whole pattern must also consume
the whole input (`unconverted data remains` otherwise). -/
def matchFmt (toks : List Tok) (cs : List Char) : Option Caps :=
  match runToks toks {} cs with
  | [] => none
  | (caps, rest) :: _ => if rest = [] then some caps else none

/-- The validation `datetime(...)` performs on strptime's captures. -/
def validCaps (c : Caps) : Prop :=
  1 ≤ c.year ∧ c.year ≤ 9999 ∧ 1 ≤ c.month ∧ c.month ≤ 12 ∧
    1 ≤ c.day ∧ c.day ≤ diasEnMes c.year c.month ∧
    c.hour ≤ 23 ∧ c.minute ≤ 59 ∧ c.second ≤ 59

instance (c : Caps) : Decidable (validCaps c) := by
  unfold validCaps
  infer_instance

/-- The format list of formatters.py:90-103, in order, with the flag
marking the month/year formats of line 109 (those return day 1). -/
def fmts : List (List Tok × Bool) :=
  [([.Y, .lit '-', .M, .lit '-', .D], false),
   ([.D, .lit '/', .M, .lit '/', .Y], false),
   ([.D, .lit '-', .M, .lit '-', .Y], false),
   ([.M, .lit '/', .Y], true),
   ([.Y, .lit '/', .M, .lit '/', .D], false),
   ([.Y, .lit '-', .M], true),
   ([.Y, .lit '-', .M, .lit '-', .D, .ws, .H, .lit ':', .Mi, .lit ':', .S], false),
   ([.D, .lit '/', .M, .lit '/', .Y, .ws, .H, .lit ':', .Mi, .lit ':', .S], false),
   ([.B, .ws, .Y], true),
   ([.Bb, .ws, .Y], true),
   ([.Y, .lit '/', .M], true),
   ([.M, .lit '-', .Y], true)]

/-- One iteration of the `for f in fmts` loop: `strptime` then either
`date(dt.year, dt.month, 1)` for month/year formats or `dt.date()`. -/
def applyFmt (f : List Tok × Bool) (cs : List Char) : Option Fecha :=
  match matchFmt f.1 cs with
  | none => none
  | some caps =>
    if validCaps caps then
      some (if f.2 then ⟨caps.year, caps.month, 1⟩
            else ⟨caps.year, caps.month, caps.day⟩)
    else none

def strptimeStage (cs : List Char) : Option Fecha :=
  fmts.findSome? fun f => applyFmt f cs

/-- Python `str.split` on a single separator character (keeps empty
fields). -/
def splitSep (sep : Char) : List Char → List (List Char)
  | [] => [[]]
  | c :: rest =>
    let r := splitSep sep rest
    if c = sep then [] :: r
    else
      match r with
      | h :: t => (c :: h) :: t
      | [] => [[c]]

/-- Python `int(str)`: surrounding whitespace, an optional sign, then
decimal digits.  (CPython additionally allows `_` grouping between
digits; not modelled, no input here uses it.) -/
def pyInt (cs : List Char) : Option ℤ :=
  match pyStrip cs with
  | [] => none
  | c :: r =>
    if c = '-' then
      if r ≠ [] ∧ r.all isDigitC then some (-(valDigits r : ℤ)) else none
    else if c = '+' then
      if r ≠ [] ∧ r.all isDigitC then some ((valDigits r : ℤ)) else none
    else if (c :: r).all isDigitC then some ((valDigits (c :: r) : ℤ)) else none

/-- The manual month/year stage (formatters.py:115-124). -/
def manualStage (cs : List Char) : Option Fecha :=
  if '/' ∈ cs ∨ '-' ∈ cs then
    match splitSep '-' (pyReplaceChar cs '/' '-') with
    | [a, b] =>
      match pyInt a, pyInt b with
      | some year, some month =>
        if 1900 ≤ year ∧ year ≤ 2100 ∧ 1 ≤ month ∧ month ≤ 12 then
          some ⟨year.toNat, month.toNat, 1⟩
        else none
      | _, _ => none
    | _ => none
  else none

/-- Modelled from the spec: the final fallback of `safe_parse_date`
(formatters.py:127-135) calls `pandas.to_datetime(s, dayfirst=True,
errors="coerce")`; pandas is a third-party library whose source is not
part of this repository, so this stage is modelled from the spec's
description — "a general-purpose date inference with day-before-month
precedence (ambiguous `DD-MM` vs `MM-DD` input defaults to day-first)".
The model infers a date from three numeric fields separated by `.`, `/`,
`-` or spaces with a four-digit year in last position, preferring the
day-first reading and falling back to month-first only when day-first is
not a valid date; anything else is not inferred (`NaT`, hence `None`). -/
def pandas_dayfirst_fallback (cs : List Char) : Option Fecha :=
  let norm := cs.map fun c =>
    if c = '/' ∨ c = '-' ∨ c = ' ' then '.' else c
  match splitSep '.' norm with
  | [a, b, y] =>
    if a ≠ [] ∧ a.length ≤ 2 ∧ a.all isDigitC ∧
        b ≠ [] ∧ b.length ≤ 2 ∧ b.all isDigitC ∧
        y.length = 4 ∧ y.all isDigitC then
      let av := valDigits a
      let bv := valDigits b
      let yv := valDigits y
      if 1 ≤ av ∧ av ≤ 31 ∧ 1 ≤ bv ∧ bv ≤ 12 ∧ 1 ≤ yv ∧
          av ≤ diasEnMes yv bv then
        some ⟨yv, bv, av⟩
      else if 1 ≤ bv ∧ bv ≤ 31 ∧ 1 ≤ av ∧ av ≤ 12 ∧ 1 ≤ yv ∧
          bv ≤ diasEnMes yv av then
        some ⟨yv, av, bv⟩
      else none
    else none
  | _ => none

/-- `safe_parse_date` (formatters.py:49-135) on a string input (the
`None`/`NaN`/`datetime` branches live in the `PyVal` wrapper below). -/
def safe_parse_date (s : String) : Option Fecha :=
  let cs := pyStrip s.data
  if cs = [] then none
  else
    match strptimeStage cs with
    | some d => some d
    | none =>
      match manualStage cs with
      | some d => some d
      | none => pandas_dayfirst_fallback cs

/-! ### Symbolic reasoning about the format machinery -/

/-- Zero-padded two-digit rendering, the shape `DD` / `MM` of the claims. -/
def pad2C (n : ℕ) : List Char := [dchar (n / 10 % 10), dchar (n % 10)]

/-- Four-digit rendering, the shape `YYYY` of the claims. -/
def pad4C (n : ℕ) : List Char :=
  [dchar (n / 1000 % 10), dchar (n / 100 % 10), dchar (n / 10 % 10), dchar (n % 10)]

theorem char_eq_of_toNat {a b : Char} (h : a.toNat = b.toNat) : a = b := by
  have ha := Char.ofNat_toNat a
  have hb := Char.ofNat_toNat b
  rw [← ha, ← hb, h]

theorem dchar_eq_char (a : ℕ) (ha : a ≤ 9) (c : Char) :
    dchar a = c ↔ 48 + a = c.toNat := by
  constructor
  · intro h
    rw [← h, dchar_toNat a ha]
  · intro h
    exact char_eq_of_toNat (by rw [dchar_toNat a ha, h])

theorem cval_dchar (a : ℕ) (ha : a ≤ 9) : cval (dchar a) = a := by
  rw [cval, dchar_toNat a ha]
  omega

theorem dchar_ne_zero_of_pos (b : ℕ) (hb9 : b ≤ 9) (hb1 : 1 ≤ b) :
    dchar b ≠ '0' := by
  intro hcon
  rw [dchar_eq_char b hb9, show ('0' : Char).toNat = 48 from rfl] at hcon
  omega

theorem stepD_pad2 (d : ℕ) (h1 : 1 ≤ d) (h31 : d ≤ 31) (rest : List Char) :
    stepD (pad2C d ++ rest)
      = if d < 10 then [(d, rest)]
        else [(d, rest), (d / 10, dchar (d % 10) :: rest)] := by
  have ha : d / 10 % 10 = d / 10 := by omega
  have hb9 : d % 10 ≤ 9 := by omega
  unfold pad2C stepD
  rw [ha]
  simp only [List.cons_append, List.nil_append]
  have ha3 : d / 10 ≤ 3 := by omega
  set a := d / 10 with hadef
  set b := d % 10 with hbdef
  have hd : d = 10 * a + b := by omega
  interval_cases a
  · have hb1 : 1 ≤ b := by omega
    rw [if_neg (fun h => by rw [dchar_eval0] at h; exact absurd h.1 (by decide)),
      if_neg (fun h => by
        rw [dchar_eval0] at h
        rcases h.1 with h' | h' <;> exact absurd h' (by decide)),
      if_pos ⟨dchar_eval0, isDigitC_dchar b hb9, dchar_ne_zero_of_pos b hb9 hb1⟩,
      if_neg (fun h => h.2 dchar_eval0),
      if_pos (by omega : d < 10)]
    rw [cval_dchar b hb9]
    simp
    omega
  · rw [if_neg (fun h => by rw [dchar_eval1] at h; exact absurd h.1 (by decide)),
      if_pos ⟨Or.inl dchar_eval1, isDigitC_dchar b hb9⟩,
      if_neg (fun h => by rw [dchar_eval1] at h; exact absurd h.1 (by decide)),
      if_pos ⟨isDigitC_dchar 1 (by norm_num), fun hcon => by
        rw [dchar_eval1] at hcon; exact absurd hcon (by decide)⟩,
      if_neg (by omega : ¬ d < 10)]
    rw [cval_dchar 1 (by norm_num), cval_dchar b hb9]
    simp
    omega
  · rw [if_neg (fun h => by rw [dchar_eval2] at h; exact absurd h.1 (by decide)),
      if_pos ⟨Or.inr dchar_eval2, isDigitC_dchar b hb9⟩,
      if_neg (fun h => by rw [dchar_eval2] at h; exact absurd h.1 (by decide)),
      if_pos ⟨isDigitC_dchar 2 (by norm_num), fun hcon => by
        rw [dchar_eval2] at hcon; exact absurd hcon (by decide)⟩,
      if_neg (by omega : ¬ d < 10)]
    rw [cval_dchar 2 (by norm_num), cval_dchar b hb9]
    simp
    omega
  · have hb1 : b ≤ 1 := by omega
    have hb01 : dchar b = '0' ∨ dchar b = '1' := by
      interval_cases b
      · exact Or.inl dchar_eval0
      · exact Or.inr dchar_eval1
    rw [if_pos ⟨dchar_eval3, hb01⟩,
      if_neg (fun h => by
        rw [dchar_eval3] at h
        rcases h.1 with h' | h' <;> exact absurd h' (by decide)),
      if_neg (fun h => by rw [dchar_eval3] at h; exact absurd h.1 (by decide)),
      if_pos ⟨isDigitC_dchar 3 (by norm_num), fun hcon => by
        rw [dchar_eval3] at hcon; exact absurd hcon (by decide)⟩,
      if_neg (by omega : ¬ d < 10)]
    rw [cval_dchar 3 (by norm_num), cval_dchar b hb9]
    simp
    omega

theorem stepM_pad2 (m : ℕ) (h1 : 1 ≤ m) (h12 : m ≤ 12) (rest : List Char) :
    stepM (pad2C m ++ rest)
      = if m < 10 then [(m, rest)]
        else [(m, rest), (1, dchar (m % 10) :: rest)] := by
  have ha : m / 10 % 10 = m / 10 := by omega
  have hb9 : m % 10 ≤ 9 := by omega
  unfold pad2C stepM
  rw [ha]
  simp only [List.cons_append, List.nil_append]
  have ha1 : m / 10 ≤ 1 := by omega
  set a := m / 10 with hadef
  set b := m % 10 with hbdef
  have hd : m = 10 * a + b := by omega
  interval_cases a
  · have hb1 : 1 ≤ b := by omega
    rw [if_neg (fun h => by rw [dchar_eval0] at h; exact absurd h.1 (by decide)),
      if_pos ⟨dchar_eval0, isDigitC_dchar b hb9, dchar_ne_zero_of_pos b hb9 hb1⟩,
      if_neg (fun h => h.2 dchar_eval0),
      if_pos (by omega : m < 10)]
    rw [cval_dchar b hb9]
    simp
    omega
  · have hb2 : b ≤ 2 := by omega
    have hb012 : dchar b = '0' ∨ dchar b = '1' ∨ dchar b = '2' := by
      interval_cases b
      · exact Or.inl dchar_eval0
      · exact Or.inr (Or.inl dchar_eval1)
      · exact Or.inr (Or.inr dchar_eval2)
    rw [if_pos ⟨dchar_eval1, hb012⟩,
      if_neg (fun h => by rw [dchar_eval1] at h; exact absurd h.1 (by decide)),
      if_pos ⟨isDigitC_dchar 1 (by norm_num), fun hcon => by
        rw [dchar_eval1] at hcon; exact absurd hcon (by decide)⟩,
      if_neg (by omega : ¬ m < 10)]
    rw [cval_dchar 1 (by norm_num), cval_dchar b hb9]
    simp
    omega

theorem stepY_pad4_any (y : ℕ) (hy : y ≤ 9999) (rest : List Char) :
    stepY (pad4C y ++ rest) = [(y, rest)] := by
  unfold pad4C stepY
  simp only [List.cons_append, List.nil_append]
  rw [if_pos ⟨isDigitC_dchar _ (by omega), isDigitC_dchar _ (by omega),
    isDigitC_dchar _ (by omega), isDigitC_dchar _ (by omega)⟩]
  rw [cval_dchar _ (by omega : y / 1000 % 10 ≤ 9),
    cval_dchar _ (by omega : y / 100 % 10 ≤ 9),
    cval_dchar _ (by omega : y / 10 % 10 ≤ 9),
    cval_dchar _ (by omega : y % 10 ≤ 9)]
  have : ((y / 1000 % 10 * 10 + y / 100 % 10) * 10 + y / 10 % 10) * 10 + y % 10 = y := by
    omega
  rw [this]

theorem stepY_fail3 (c1 c2 c3 : Char) (rest : List Char)
    (h : isDigitC c3 = false) : stepY (c1 :: c2 :: c3 :: rest) = [] := by
  rcases rest with _ | ⟨c4, r⟩ <;> simp [stepY, h]

theorem bind_eq_nil_of {α β : Type} (l : List α) (f : α → List β)
    (h : ∀ a ∈ l, f a = []) : l.bind f = [] := by
  induction l with
  | nil => rfl
  | cons a t ih =>
    have hstep : (a :: t).bind f = f a ++ t.bind f := rfl
    rw [hstep, h a (by simp), ih (fun x hx => h x (by simp [hx]))]
    rfl

theorem mem_ite_singleton {C : Prop} [Decidable C] {x p : ℕ × List Char}
    (h : p ∈ (if C then [x] else ([] : List (ℕ × List Char)))) : p = x := by
  split at h
  · simpa using h
  · simp at h

theorem runToks_cons (t : Tok) (ts : List Tok) (caps : Caps) (cs : List Char) :
    runToks (t :: ts) caps cs
      = (stepTok t caps cs).bind fun p => runToks ts p.1 p.2 := rfl

theorem runToks_lit_eq (c : Char) (ts : List Tok) (caps : Caps)
    (rest : List Char) :
    runToks (.lit c :: ts) caps (c :: rest) = runToks ts caps rest := by
  simp [runToks, stepTok]

theorem runToks_lit_ne (c c1 : Char) (h : c1 ≠ c) (ts : List Tok)
    (caps : Caps) (rest : List Char) :
    runToks (.lit c :: ts) caps (c1 :: rest) = [] := by
  simp [runToks, stepTok, h]

theorem runToks_lit_dchar (c : Char) (hc : ¬ (48 ≤ c.toNat ∧ c.toNat ≤ 57))
    (k : ℕ) (hk : k ≤ 9) (ts : List Tok) (caps : Caps) (rest : List Char) :
    runToks (.lit c :: ts) caps (dchar k :: rest) = [] :=
  runToks_lit_ne c (dchar k) (digit_ne (dchar k) (isDigitC_dchar k hk) c hc) ts caps rest

theorem runToks_Y_fail3 (ts : List Tok) (caps : Caps) (c1 c2 c3 : Char)
    (rest : List Char) (h3 : isDigitC c3 = false) :
    runToks (.Y :: ts) caps (c1 :: c2 :: c3 :: rest) = [] := by
  rw [runToks_cons]
  show ((stepY _).map _).bind _ = []
  rw [stepY_fail3 c1 c2 c3 rest h3]
  rfl

theorem runToks_Y_pad4 (ts : List Tok) (caps : Caps) (y : ℕ)
    (rest : List Char) (hy : y ≤ 9999) :
    runToks (.Y :: ts) caps (pad4C y ++ rest)
      = runToks ts {caps with year := y} rest := by
  rw [runToks_cons]
  show ((stepY _).map _).bind _ = _
  rw [stepY_pad4_any y hy rest]
  simp

theorem runToks_Y_pad4_exact (ts : List Tok) (caps : Caps) (y : ℕ)
    (hy : y ≤ 9999) :
    runToks (.Y :: ts) caps (pad4C y)
      = runToks ts {caps with year := y} [] := by
  have h := runToks_Y_pad4 ts caps y [] hy
  rwa [List.append_nil] at h

theorem runToks_D_pad2 (ts : List Tok) (caps : Caps) (d : ℕ)
    (rest : List Char) (h1 : 1 ≤ d) (h31 : d ≤ 31) :
    runToks (.D :: ts) caps (pad2C d ++ rest)
      = runToks ts {caps with day := d} rest ++
        (if d < 10 then []
         else runToks ts {caps with day := d / 10} (dchar (d % 10) :: rest)) := by
  rw [runToks_cons]
  show ((stepD _).map _).bind _ = _
  rw [stepD_pad2 d h1 h31 rest]
  by_cases h : d < 10 <;> simp [h]

theorem runToks_M_pad2 (ts : List Tok) (caps : Caps) (m : ℕ)
    (rest : List Char) (h1 : 1 ≤ m) (h12 : m ≤ 12) :
    runToks (.M :: ts) caps (pad2C m ++ rest)
      = runToks ts {caps with month := m} rest ++
        (if m < 10 then []
         else runToks ts {caps with month := 1} (dchar (m % 10) :: rest)) := by
  rw [runToks_cons]
  show ((stepM _).map _).bind _ = _
  rw [stepM_pad2 m h1 h12 rest]
  by_cases h : m < 10 <;> simp [h]

theorem stepM_dd (a b : ℕ) (tail : List Char) :
    ∀ p ∈ stepM (dchar a :: dchar b :: tail),
      p.2 = dchar b :: tail ∨ p.2 = tail := by
  intro p hp
  rcases List.mem_append.mp hp with hp | hp
  · rcases List.mem_append.mp hp with hp | hp
    · right
      rw [mem_ite_singleton hp]
    · right
      rw [mem_ite_singleton hp]
  · left
    rw [mem_ite_singleton hp]

theorem stepD_dd (a b : ℕ) (tail : List Char) :
    ∀ p ∈ stepD (dchar a :: dchar b :: tail),
      p.2 = dchar b :: tail ∨ p.2 = tail := by
  intro p hp
  rcases List.mem_append.mp hp with hp | hp
  · rcases List.mem_append.mp hp with hp | hp
    · rcases List.mem_append.mp hp with hp | hp
      · right
        rw [mem_ite_singleton hp]
      · right
        rw [mem_ite_singleton hp]
    · right
      rw [mem_ite_singleton hp]
  · left
    rw [mem_ite_singleton hp]

theorem lowerC_digit (c : Char) (hc : isDigitC c = true) : lowerC c = c := by
  simp [isDigitC] at hc
  unfold lowerC
  rw [if_neg (by omega)]

theorem stepB_digit (names : List (ℕ × List Char)) (c : Char)
    (hc : isDigitC c = true)
    (h : ∀ p ∈ names, ∃ n ns, p.2 = n :: ns ∧ 97 ≤ n.toNat ∧ n.toNat ≤ 122)
    (cs : List Char) : stepB names (c :: cs) = [] := by
  unfold stepB
  apply bind_eq_nil_of
  intro p hp
  obtain ⟨n, ns, hpn, hlo, hhi⟩ := h p hp
  rw [hpn]
  have hne : lowerC c ≠ n := by
    rw [lowerC_digit c hc]
    intro hcn
    have := congrArg Char.toNat hcn
    simp [isDigitC] at hc
    omega
  simp [matchName, hne]

theorem monthNamesFull_heads :
    ∀ p ∈ monthNamesFull,
      ∃ n ns, p.2 = n :: ns ∧ 97 ≤ n.toNat ∧ n.toNat ≤ 122 := by
  intro p hp
  fin_cases hp <;> exact ⟨_, _, rfl, by decide, by decide⟩

theorem monthNamesAbbr_heads :
    ∀ p ∈ monthNamesAbbr,
      ∃ n ns, p.2 = n :: ns ∧ 97 ≤ n.toNat ∧ n.toNat ≤ 122 := by
  intro p hp
  fin_cases hp <;> exact ⟨_, _, rfl, by decide, by decide⟩

theorem runToks_B_digit (ts : List Tok) (caps : Caps) (c : Char)
    (hc : isDigitC c = true) (cs : List Char) :
    runToks (.B :: ts) caps (c :: cs) = [] := by
  rw [runToks_cons]
  show ((stepB monthNamesFull _).map _).bind _ = []
  rw [stepB_digit monthNamesFull c hc monthNamesFull_heads cs]
  rfl

theorem runToks_Bb_digit (ts : List Tok) (caps : Caps) (c : Char)
    (hc : isDigitC c = true) (cs : List Char) :
    runToks (.Bb :: ts) caps (c :: cs) = [] := by
  rw [runToks_cons]
  show ((stepB monthNamesAbbr _).map _).bind _ = []
  rw [stepB_digit monthNamesAbbr c hc monthNamesAbbr_heads cs]
  rfl

theorem mem_pad2C (c : Char) (n : ℕ) (h : c ∈ pad2C n) :
    ∃ k, k ≤ 9 ∧ c = dchar k := by
  simp [pad2C] at h
  rcases h with h | h
  · exact ⟨_, by omega, h⟩
  · exact ⟨_, by omega, h⟩

theorem mem_pad4C (c : Char) (n : ℕ) (h : c ∈ pad4C n) :
    ∃ k, k ≤ 9 ∧ c = dchar k := by
  simp [pad4C] at h
  rcases h with h | h | h | h
  · exact ⟨_, by omega, h⟩
  · exact ⟨_, by omega, h⟩
  · exact ⟨_, by omega, h⟩
  · exact ⟨_, by omega, h⟩

theorem pad2C_all_digit (n : ℕ) : (pad2C n).all isDigitC = true := by
  rw [List.all_eq_true]
  intro c hc
  obtain ⟨k, hk, rfl⟩ := mem_pad2C c n hc
  exact isDigitC_dchar k hk

theorem pad4C_all_digit (n : ℕ) : (pad4C n).all isDigitC = true := by
  rw [List.all_eq_true]
  intro c hc
  obtain ⟨k, hk, rfl⟩ := mem_pad4C c n hc
  exact isDigitC_dchar k hk

theorem pad2C_ne_sep (n : ℕ) (e : Char)
    (he : ¬ (48 ≤ e.toNat ∧ e.toNat ≤ 57)) : ∀ c ∈ pad2C n, c ≠ e := by
  intro c hc
  obtain ⟨k, hk, rfl⟩ := mem_pad2C c n hc
  exact digit_ne (dchar k) (isDigitC_dchar k hk) e he

theorem pad4C_ne_sep (n : ℕ) (e : Char)
    (he : ¬ (48 ≤ e.toNat ∧ e.toNat ≤ 57)) : ∀ c ∈ pad4C n, c ≠ e := by
  intro c hc
  obtain ⟨k, hk, rfl⟩ := mem_pad4C c n hc
  exact digit_ne (dchar k) (isDigitC_dchar k hk) e he

theorem valDigits_pad2 (n : ℕ) (h : n < 100) : valDigits (pad2C n) = n := by
  simp [valDigits, pad2C, dchar_toNat _ (by omega : n / 10 % 10 ≤ 9),
    dchar_toNat _ (by omega : n % 10 ≤ 9)]
  omega

theorem valDigits_pad4 (n : ℕ) (h : n < 10000) : valDigits (pad4C n) = n := by
  simp [valDigits, pad4C, dchar_toNat _ (by omega : n / 1000 % 10 ≤ 9),
    dchar_toNat _ (by omega : n / 100 % 10 ≤ 9),
    dchar_toNat _ (by omega : n / 10 % 10 ≤ 9),
    dchar_toNat _ (by omega : n % 10 ≤ 9)]
  omega

theorem valDigits_cons_zero (l : List Char) :
    valDigits ('0' :: l) = valDigits l := by
  simp [valDigits]

theorem diasEnMes_ge_28 (y m : ℕ) (h1 : 1 ≤ m) (h12 : m ≤ 12) :
    28 ≤ diasEnMes y m := by
  unfold diasEnMes
  by_cases h : m = 2 ∧ isLeapYear y
  · rw [if_pos h]
    norm_num
  · rw [if_neg h]
    interval_cases m <;> decide

theorem diasEnMes_le_31 (y m : ℕ) (h12 : m ≤ 12) : diasEnMes y m ≤ 31 := by
  unfold diasEnMes
  by_cases h : m = 2 ∧ isLeapYear y
  · rw [if_pos h]
    norm_num
  · rw [if_neg h]
    interval_cases m <;> decide

theorem splitSep_nosep (sep : Char) (l : List Char)
    (h : ∀ c ∈ l, c ≠ sep) : splitSep sep l = [l] := by
  induction l with
  | nil => rfl
  | cons c t ih =>
    simp only [splitSep]
    rw [if_neg (h c (by simp)), ih (fun x hx => h x (by simp [hx]))]

theorem splitSep_sep_cons (sep : Char) (l1 l2 : List Char)
    (h1 : ∀ c ∈ l1, c ≠ sep) :
    splitSep sep (l1 ++ sep :: l2) = l1 :: splitSep sep l2 := by
  induction l1 with
  | nil =>
    simp [splitSep]
  | cons c t ih =>
    simp only [List.cons_append, splitSep, List.append_eq]
    rw [if_neg (h1 c (by simp)), ih (fun x hx => h1 x (by simp [hx]))]

theorem splitSep_three (sep : Char) (l1 l2 l3 : List Char)
    (h1 : ∀ c ∈ l1, c ≠ sep) (h2 : ∀ c ∈ l2, c ≠ sep)
    (h3 : ∀ c ∈ l3, c ≠ sep) :
    splitSep sep (l1 ++ sep :: (l2 ++ sep :: l3)) = [l1, l2, l3] := by
  rw [splitSep_sep_cons sep l1 _ h1, splitSep_sep_cons sep l2 _ h2,
    splitSep_nosep sep l3 h3]

theorem splitSep_two (sep : Char) (l1 l2 : List Char)
    (h1 : ∀ c ∈ l1, c ≠ sep) (h2 : ∀ c ∈ l2, c ≠ sep) :
    splitSep sep (l1 ++ sep :: l2) = [l1, l2] := by
  rw [splitSep_sep_cons sep l1 _ h1, splitSep_nosep sep l2 h2]

theorem if_nil_nil {α : Type} {C : Prop} [Decidable C] {l : List α}
    (h : ¬C → l = []) : (if C then ([] : List α) else l) = [] := by
  by_cases hC : C
  · rw [if_pos hC]
  · rw [if_neg hC]
    exact h hC

/-- A day field whose two alternatives are both followed by a literal
that matches neither continuation head fails. -/
theorem runToks_D_sep (a1 a2 : ℕ) (h2 : a2 ≤ 9) (e : Char)
    (tail : List Char) (c : Char) (ts : List Tok) (caps : Caps)
    (hc : ¬ (48 ≤ c.toNat ∧ c.toNat ≤ 57)) (hec : e ≠ c) :
    runToks (.D :: .lit c :: ts) caps (dchar a1 :: dchar a2 :: e :: tail)
      = [] := by
  rw [runToks_cons]
  show ((stepD _).map _).bind _ = []
  apply bind_eq_nil_of
  intro p hp
  rw [List.mem_map] at hp
  obtain ⟨q, hq, rfl⟩ := hp
  show runToks (.lit c :: ts) {caps with day := q.1} q.2 = []
  rcases stepD_dd a1 a2 (e :: tail) q hq with h | h
  · rw [h]
    exact runToks_lit_ne c (dchar a2) (digit_ne _ (isDigitC_dchar a2 h2) c hc) _ _ _
  · rw [h]
    exact runToks_lit_ne c e hec _ _ _

theorem runToks_M_sep (a1 a2 : ℕ) (h2 : a2 ≤ 9) (e : Char)
    (tail : List Char) (c : Char) (ts : List Tok) (caps : Caps)
    (hc : ¬ (48 ≤ c.toNat ∧ c.toNat ≤ 57)) (hec : e ≠ c) :
    runToks (.M :: .lit c :: ts) caps (dchar a1 :: dchar a2 :: e :: tail)
      = [] := by
  rw [runToks_cons]
  show ((stepM _).map _).bind _ = []
  apply bind_eq_nil_of
  intro p hp
  rw [List.mem_map] at hp
  obtain ⟨q, hq, rfl⟩ := hp
  show runToks (.lit c :: ts) {caps with month := q.1} q.2 = []
  rcases stepM_dd a1 a2 (e :: tail) q hq with h | h
  · rw [h]
    exact runToks_lit_ne c (dchar a2) (digit_ne _ (isDigitC_dchar a2 h2) c hc) _ _ _
  · rw [h]
    exact runToks_lit_ne c e hec _ _ _

theorem stepM_00 (t : List Char) : stepM ('0' :: '0' :: t) = [] := by
  simp [stepM]

theorem stepM_0d (k : ℕ) (h1 : 1 ≤ k) (h9 : k ≤ 9) (t : List Char) :
    stepM ('0' :: dchar k :: t) = [(k, t)] := by
  have hdig := isDigitC_dchar k h9
  have hne := dchar_ne_zero_of_pos k h9 h1
  show ((if ('0' : Char) = '1' ∧ (dchar k = '0' ∨ dchar k = '1' ∨ dchar k = '2')
          then [(10 + cval (dchar k), t)] else []) ++
        (if ('0' : Char) = '0' ∧ isDigitC (dchar k) ∧ dchar k ≠ '0'
          then [(cval (dchar k), t)] else [])) ++
      (if isDigitC ('0' : Char) ∧ ('0' : Char) ≠ '0'
        then [(cval '0', dchar k :: t)] else []) = [(k, t)]
  rw [if_neg (fun h => absurd h.1 (by decide)), if_pos ⟨rfl, hdig, hne⟩,
    if_neg (fun h => h.2 rfl), cval_dchar k h9]
  rfl

theorem runToks_M_00 (ts : List Tok) (caps : Caps) (t : List Char) :
    runToks (.M :: ts) caps ('0' :: '0' :: t) = [] := by
  rw [runToks_cons]
  show ((stepM _).map _).bind _ = []
  rw [stepM_00]
  rfl

theorem runToks_M_0d (ts : List Tok) (caps : Caps) (k : ℕ) (t : List Char)
    (h1 : 1 ≤ k) (h9 : k ≤ 9) :
    runToks (.M :: ts) caps ('0' :: dchar k :: t)
      = runToks ts {caps with month := k} t := by
  rw [runToks_cons]
  show ((stepM _).map _).bind _ = _
  rw [stepM_0d k h1 h9 t]
  simp

theorem matchFmt_head (toks : List Tok) (cs : List Char) (caps : Caps)
    (tail : List (Caps × List Char))
    (h : runToks toks {} cs = (caps, []) :: tail) :
    matchFmt toks cs = some caps := by
  unfold matchFmt
  rw [h]
  simp

theorem applyFmt_none (f : List Tok × Bool) (cs : List Char)
    (h : runToks f.1 {} cs = []) : applyFmt f cs = none := by
  unfold applyFmt matchFmt
  rw [h]

theorem matchFmt_rest_ne (toks : List Tok) (cs : List Char) (caps : Caps)
    (r : List Char) (tail : List (Caps × List Char))
    (h : runToks toks {} cs = (caps, r) :: tail) (hr : r ≠ []) :
    matchFmt toks cs = none := by
  unfold matchFmt
  rw [h]
  simp [hr]

theorem applyFmt_rest (f : List Tok × Bool) (cs : List Char) (caps : Caps)
    (r : List Char) (tail : List (Caps × List Char))
    (h : runToks f.1 {} cs = (caps, r) :: tail) (hr : r ≠ []) :
    applyFmt f cs = none := by
  unfold applyFmt
  rw [matchFmt_rest_ne f.1 cs caps r tail h hr]

theorem fs_cons_none {α β : Type} (f : α → Option β) (a : α) (l : List α)
    (h : f a = none) : (a :: l).findSome? f = l.findSome? f := by
  simp [List.findSome?_cons, h]

theorem fs_cons_some {α β : Type} (f : α → Option β) (a : α) (l : List α)
    (b : β) (h : f a = some b) : (a :: l).findSome? f = some b := by
  simp [List.findSome?_cons, h]

theorem pyInt_digits (l : List Char) (hne : l ≠ []) (h : l.all isDigitC = true) :
    pyInt l = some ((valDigits l : ℤ)) := by
  unfold pyInt
  rw [pyStrip_eq_self l (fun c hc => isSpaceC_of_digit c
    (by rw [List.all_eq_true] at h; exact h c hc))]
  cases l with
  | nil => exact absurd rfl hne
  | cons c r =>
    have hc : isDigitC c = true := by
      rw [List.all_eq_true] at h
      exact h c (by simp)
    show (if c = '-' then
            if r ≠ [] ∧ r.all isDigitC then some (-(valDigits r : ℤ)) else none
          else if c = '+' then
            if r ≠ [] ∧ r.all isDigitC then some ((valDigits r : ℤ)) else none
          else if (c :: r).all isDigitC then some ((valDigits (c :: r) : ℤ))
          else none)
        = some ((valDigits (c :: r) : ℤ))
    rw [if_neg (digit_ne c hc '-' (by decide)),
      if_neg (digit_ne c hc '+' (by decide)), if_pos h]

theorem safe_parse_date_stage1 (s : String) (cs : List Char)
    (hstrip : pyStrip s.data = cs) (hne : cs ≠ []) (d : Fecha)
    (h1 : strptimeStage cs = some d) : safe_parse_date s = some d := by
  simp only [safe_parse_date]
  rw [hstrip, if_neg hne, h1]

theorem safe_parse_date_stage2 (s : String) (cs : List Char)
    (hstrip : pyStrip s.data = cs) (hne : cs ≠ [])
    (h1 : strptimeStage cs = none) (d : Fecha)
    (h2 : manualStage cs = some d) : safe_parse_date s = some d := by
  simp only [safe_parse_date]
  rw [hstrip, if_neg hne, h1, h2]

theorem safe_parse_date_stage3 (s : String) (cs : List Char)
    (hstrip : pyStrip s.data = cs) (hne : cs ≠ [])
    (h1 : strptimeStage cs = none) (h2 : manualStage cs = none) :
    safe_parse_date s = pandas_dayfirst_fallback cs := by
  simp only [safe_parse_date]
  rw [hstrip, if_neg hne, h1, h2]

theorem mem_two (l1 l2 : List Char) (e : Char) (c : Char)
    (hc : c ∈ l1 ++ e :: l2) : c = e ∨ c ∈ l1 ∨ c ∈ l2 := by
  rcases List.mem_append.mp hc with h | h
  · exact Or.inr (Or.inl h)
  · rcases List.mem_cons.mp h with h | h
    · exact Or.inl h
    · exact Or.inr (Or.inr h)

theorem mem_three (l1 l2 l3 : List Char) (e : Char) (c : Char)
    (hc : c ∈ l1 ++ e :: (l2 ++ e :: l3)) :
    c = e ∨ c ∈ l1 ∨ c ∈ l2 ∨ c ∈ l3 := by
  rcases mem_two l1 (l2 ++ e :: l3) e c hc with h | h | h
  · exact Or.inl h
  · exact Or.inr (Or.inl h)
  · rcases mem_two l2 l3 e c h with h | h | h
    · exact Or.inl h
    · exact Or.inr (Or.inr (Or.inl h))
    · exact Or.inr (Or.inr (Or.inr h))

/-- `DD/MM/YYYY`-shaped input: the first backtracking match of the
`%d/%m/%Y` pattern consumes everything, capturing day-first. -/
theorem runToks_AR_A (d m y : ℕ) (hd1 : 1 ≤ d) (hd31 : d ≤ 31)
    (hm1 : 1 ≤ m) (hm12 : m ≤ 12) (hy : y ≤ 9999) :
    runToks [.D, .lit '/', .M, .lit '/', .Y] {}
      (pad2C d ++ '/' :: (pad2C m ++ '/' :: pad4C y))
      = [(⟨y, m, d, 0, 0, 0⟩, [])] := by
  rw [runToks_D_pad2 _ _ d _ hd1 hd31,
    if_nil_nil (fun _ => runToks_lit_dchar '/' (by decide) (d % 10) (by omega) _ _ _),
    runToks_lit_eq,
    runToks_M_pad2 _ _ m _ hm1 hm12,
    if_nil_nil (fun _ => runToks_lit_dchar '/' (by decide) (m % 10) (by omega) _ _ _),
    runToks_lit_eq,
    runToks_Y_pad4_exact _ _ y hy]
  rfl

theorem runToks_D_pad2_exact (ts : List Tok) (caps : Caps) (d : ℕ)
    (h1 : 1 ≤ d) (h31 : d ≤ 31) :
    runToks (.D :: ts) caps (pad2C d)
      = runToks ts {caps with day := d} [] ++
        (if d < 10 then []
         else runToks ts {caps with day := d / 10} [dchar (d % 10)]) := by
  have h := runToks_D_pad2 ts caps d [] h1 h31
  rwa [List.append_nil] at h

/-- `YYYY-MM-DD`-shaped input: `%Y-%m-%d` matches, with the only
alternative continuation (splitting a two-digit day) left behind the
head. -/
theorem runToks_ISO_B (d m y : ℕ) (hd1 : 1 ≤ d) (hd31 : d ≤ 31)
    (hm1 : 1 ≤ m) (hm12 : m ≤ 12) (hy : y ≤ 9999) :
    runToks [.Y, .lit '-', .M, .lit '-', .D] {}
      (pad4C y ++ '-' :: (pad2C m ++ '-' :: pad2C d))
      = (⟨y, m, d, 0, 0, 0⟩, []) ::
        (if d < 10 then []
         else [(⟨y, m, d / 10, 0, 0, 0⟩, [dchar (d % 10)])]) := by
  rw [runToks_Y_pad4 _ _ y _ hy,
    runToks_lit_eq,
    runToks_M_pad2 _ _ m _ hm1 hm12,
    if_nil_nil (fun _ => runToks_lit_dchar '-' (by decide) (m % 10) (by omega) _ _ _),
    runToks_lit_eq,
    runToks_D_pad2_exact _ _ d hd1 hd31]
  by_cases hd : d < 10 <;> simp [runToks, hd]

/-- `MM/YYYY`-shaped input: `%m/%Y` matches, day capture stays at its
default 1. -/
theorem runToks_MY_C (m y : ℕ) (hm1 : 1 ≤ m) (hm12 : m ≤ 12)
    (hy : y ≤ 9999) :
    runToks [.M, .lit '/', .Y] {} (pad2C m ++ '/' :: pad4C y)
      = [(⟨y, m, 1, 0, 0, 0⟩, [])] := by
  rw [runToks_M_pad2 _ _ m _ hm1 hm12,
    if_nil_nil (fun _ => runToks_lit_dchar '/' (by decide) (m % 10) (by omega) _ _ _),
    runToks_lit_eq,
    runToks_Y_pad4_exact _ _ y hy]
  rfl

theorem validCaps_of_bounds (y m d : ℕ) (hy1 : 1 ≤ y) (hy : y ≤ 9999)
    (hm1 : 1 ≤ m) (hm12 : m ≤ 12) (hd1 : 1 ≤ d) (hdm : d ≤ diasEnMes y m) :
    validCaps ⟨y, m, d, 0, 0, 0⟩ := by
  refine ⟨hy1, hy, hm1, hm12, hd1, hdm, ?_, ?_, ?_⟩ <;> norm_num

/-- `%Y-%m-%d` fails on a `DD/MM/YYYY`-shaped string: the year directive
needs four digits but hits `/` at position 2. -/
theorem applyFmt_ISO_on_A (d m y : ℕ) :
    applyFmt ([.Y, .lit '-', .M, .lit '-', .D], false)
      (pad2C d ++ '/' :: (pad2C m ++ '/' :: pad4C y)) = none := by
  apply applyFmt_none
  show runToks [.Y, .lit '-', .M, .lit '-', .D] {}
      (pad2C d ++ '/' :: (pad2C m ++ '/' :: pad4C y)) = []
  rw [show (pad2C d ++ '/' :: (pad2C m ++ '/' :: pad4C y) : List Char)
      = dchar (d / 10 % 10) :: dchar (d % 10) :: '/' :: (pad2C m ++ '/' :: pad4C y)
      from rfl]
  exact runToks_Y_fail3 _ _ _ _ _ _ (by decide)

theorem applyFmt_AR_on_A (d m y : ℕ) (hd1 : 1 ≤ d) (hd31 : d ≤ 31)
    (hm1 : 1 ≤ m) (hm12 : m ≤ 12) (hy1 : 1 ≤ y) (hy : y ≤ 9999)
    (hdm : d ≤ diasEnMes y m) :
    applyFmt ([.D, .lit '/', .M, .lit '/', .Y], false)
      (pad2C d ++ '/' :: (pad2C m ++ '/' :: pad4C y)) = some ⟨y, m, d⟩ := by
  unfold applyFmt
  rw [matchFmt_head _ _ ⟨y, m, d, 0, 0, 0⟩ []
    (runToks_AR_A d m y hd1 hd31 hm1 hm12 hy)]
  simp [validCaps_of_bounds y m d hy1 hy hm1 hm12 hd1 hdm]

theorem strptimeStage_A (d m y : ℕ) (hd1 : 1 ≤ d) (hd31 : d ≤ 31)
    (hm1 : 1 ≤ m) (hm12 : m ≤ 12) (hy1 : 1 ≤ y) (hy : y ≤ 9999)
    (hdm : d ≤ diasEnMes y m) :
    strptimeStage (pad2C d ++ '/' :: (pad2C m ++ '/' :: pad4C y))
      = some ⟨y, m, d⟩ := by
  unfold strptimeStage fmts
  rw [fs_cons_none (fun f => applyFmt f (pad2C d ++ '/' :: (pad2C m ++ '/' :: pad4C y)))
      ([.Y, .lit '-', .M, .lit '-', .D], false) _ (applyFmt_ISO_on_A d m y),
    fs_cons_some (fun f => applyFmt f (pad2C d ++ '/' :: (pad2C m ++ '/' :: pad4C y)))
      ([.D, .lit '/', .M, .lit '/', .Y], false) _ _
      (applyFmt_AR_on_A d m y hd1 hd31 hm1 hm12 hy1 hy hdm)]

theorem applyFmt_ISO_on_B (d m y : ℕ) (hd1 : 1 ≤ d) (hd31 : d ≤ 31)
    (hm1 : 1 ≤ m) (hm12 : m ≤ 12) (hy1 : 1 ≤ y) (hy : y ≤ 9999)
    (hdm : d ≤ diasEnMes y m) :
    applyFmt ([.Y, .lit '-', .M, .lit '-', .D], false)
      (pad4C y ++ '-' :: (pad2C m ++ '-' :: pad2C d)) = some ⟨y, m, d⟩ := by
  unfold applyFmt
  rw [matchFmt_head _ _ ⟨y, m, d, 0, 0, 0⟩
    (if d < 10 then []
     else [(⟨y, m, d / 10, 0, 0, 0⟩, [dchar (d % 10)])])
    (runToks_ISO_B d m y hd1 hd31 hm1 hm12 hy)]
  simp [validCaps_of_bounds y m d hy1 hy hm1 hm12 hd1 hdm]

theorem strptimeStage_B (d m y : ℕ) (hd1 : 1 ≤ d) (hd31 : d ≤ 31)
    (hm1 : 1 ≤ m) (hm12 : m ≤ 12) (hy1 : 1 ≤ y) (hy : y ≤ 9999)
    (hdm : d ≤ diasEnMes y m) :
    strptimeStage (pad4C y ++ '-' :: (pad2C m ++ '-' :: pad2C d))
      = some ⟨y, m, d⟩ := by
  unfold strptimeStage fmts
  rw [fs_cons_some (fun f => applyFmt f (pad4C y ++ '-' :: (pad2C m ++ '-' :: pad2C d)))
      ([.Y, .lit '-', .M, .lit '-', .D], false) _ _
      (applyFmt_ISO_on_B d m y hd1 hd31 hm1 hm12 hy1 hy hdm)]

/-- `%Y-%m-%d` fails on `MM/YYYY`: `/` at position 2 kills `%Y`. -/
theorem applyFmt_ISO_on_C (m y : ℕ) :
    applyFmt ([.Y, .lit '-', .M, .lit '-', .D], false)
      (pad2C m ++ '/' :: pad4C y) = none := by
  apply applyFmt_none
  show runToks [.Y, .lit '-', .M, .lit '-', .D] {}
      (pad2C m ++ '/' :: pad4C y) = []
  rw [show (pad2C m ++ '/' :: pad4C y : List Char)
      = dchar (m / 10 % 10) :: dchar (m % 10) :: '/' :: pad4C y from rfl]
  exact runToks_Y_fail3 _ _ _ _ _ _ (by decide)

/-- `%d/%m/%Y` fails on `MM/YYYY`: after the day and `/`, the month
directive eats one or two year digits and the next `/` hits a digit. -/
theorem applyFmt_AR_on_C (m y : ℕ) (hm1 : 1 ≤ m) (hm12 : m ≤ 12) :
    applyFmt ([.D, .lit '/', .M, .lit '/', .Y], false)
      (pad2C m ++ '/' :: pad4C y) = none := by
  apply applyFmt_none
  show runToks [.D, .lit '/', .M, .lit '/', .Y] {}
      (pad2C m ++ '/' :: pad4C y) = []
  rw [runToks_D_pad2 _ _ m _ hm1 (by omega),
    if_nil_nil (fun _ => runToks_lit_dchar '/' (by decide) (m % 10) (by omega) _ _ _),
    runToks_lit_eq,
    show (pad4C y : List Char)
      = dchar (y / 1000 % 10) :: dchar (y / 100 % 10)
        :: dchar (y / 10 % 10) :: [dchar (y % 10)] from rfl,
    runToks_M_sep (y / 1000 % 10) (y / 100 % 10) (by omega) (dchar (y / 10 % 10))
      [dchar (y % 10)] '/' _ _ (by decide)
      (digit_ne _ (isDigitC_dchar _ (by omega)) '/' (by decide))]
  rfl

/-- `%d-%m-%Y` fails on `MM/YYYY`: the literal `-` meets `/`. -/
theorem applyFmt_ARg_on_C (m y : ℕ) (hm1 : 1 ≤ m) (hm12 : m ≤ 12) :
    applyFmt ([.D, .lit '-', .M, .lit '-', .Y], false)
      (pad2C m ++ '/' :: pad4C y) = none := by
  apply applyFmt_none
  show runToks [.D, .lit '-', .M, .lit '-', .Y] {}
      (pad2C m ++ '/' :: pad4C y) = []
  rw [runToks_D_pad2 _ _ m _ hm1 (by omega),
    if_nil_nil (fun _ => runToks_lit_dchar '-' (by decide) (m % 10) (by omega) _ _ _),
    runToks_lit_ne '-' '/' (by decide) _ _ _]
  rfl

theorem applyFmt_MY_on_C (m y : ℕ) (hm1 : 1 ≤ m) (hm12 : m ≤ 12)
    (hy1 : 1 ≤ y) (hy : y ≤ 9999) :
    applyFmt ([.M, .lit '/', .Y], true)
      (pad2C m ++ '/' :: pad4C y) = some ⟨y, m, 1⟩ := by
  unfold applyFmt
  rw [matchFmt_head _ _ ⟨y, m, 1, 0, 0, 0⟩ [] (runToks_MY_C m y hm1 hm12 hy)]
  simp [validCaps_of_bounds y m 1 hy1 hy hm1 hm12 (le_refl 1)
    (le_trans (by norm_num) (diasEnMes_ge_28 y m hm1 hm12))]

theorem strptimeStage_C (m y : ℕ) (hm1 : 1 ≤ m) (hm12 : m ≤ 12)
    (hy1 : 1 ≤ y) (hy : y ≤ 9999) :
    strptimeStage (pad2C m ++ '/' :: pad4C y) = some ⟨y, m, 1⟩ := by
  unfold strptimeStage fmts
  rw [fs_cons_none (fun f => applyFmt f (pad2C m ++ '/' :: pad4C y))
      ([.Y, .lit '-', .M, .lit '-', .D], false) _ (applyFmt_ISO_on_C m y),
    fs_cons_none (fun f => applyFmt f (pad2C m ++ '/' :: pad4C y))
      ([.D, .lit '/', .M, .lit '/', .Y], false) _ (applyFmt_AR_on_C m y hm1 hm12),
    fs_cons_none (fun f => applyFmt f (pad2C m ++ '/' :: pad4C y))
      ([.D, .lit '-', .M, .lit '-', .Y], false) _ (applyFmt_ARg_on_C m y hm1 hm12),
    fs_cons_some (fun f => applyFmt f (pad2C m ++ '/' :: pad4C y))
      ([.M, .lit '/', .Y], true) _ _ (applyFmt_MY_on_C m y hm1 hm12 hy1 hy)]

theorem pad2C_no_space (n : ℕ) : ∀ c ∈ pad2C n, isSpaceC c = false := by
  intro c hc
  obtain ⟨k, hk, rfl⟩ := mem_pad2C c n hc
  exact isSpaceC_of_digit _ (isDigitC_dchar k hk)

theorem pad4C_no_space (n : ℕ) : ∀ c ∈ pad4C n, isSpaceC c = false := by
  intro c hc
  obtain ⟨k, hk, rfl⟩ := mem_pad4C c n hc
  exact isSpaceC_of_digit _ (isDigitC_dchar k hk)

theorem no_space_three (l1 l2 l3 : List Char) (e : Char)
    (he : isSpaceC e = false)
    (h1 : ∀ c ∈ l1, isSpaceC c = false) (h2 : ∀ c ∈ l2, isSpaceC c = false)
    (h3 : ∀ c ∈ l3, isSpaceC c = false) :
    ∀ c ∈ l1 ++ e :: (l2 ++ e :: l3), isSpaceC c = false := by
  intro c hc
  rcases mem_three l1 l2 l3 e c hc with h | h | h | h
  · subst h
    exact he
  · exact h1 c h
  · exact h2 c h
  · exact h3 c h

theorem no_space_two (l1 l2 : List Char) (e : Char)
    (he : isSpaceC e = false)
    (h1 : ∀ c ∈ l1, isSpaceC c = false) (h2 : ∀ c ∈ l2, isSpaceC c = false) :
    ∀ c ∈ l1 ++ e :: l2, isSpaceC c = false := by
  intro c hc
  rcases mem_two l1 l2 e c hc with h | h | h
  · subst h
    exact he
  · exact h1 c h
  · exact h2 c h

/-- No fixed strptime format matches a dotted `DD.MM.YYYY` string: none
of the twelve patterns contains a `.` literal, and the month-name
directives reject a digit head. -/
theorem strptimeStage_D (a b y : ℕ) :
    strptimeStage (pad2C a ++ '.' :: (pad2C b ++ '.' :: pad4C y)) = none := by
  have hcons : (pad2C a ++ '.' :: (pad2C b ++ '.' :: pad4C y) : List Char)
      = dchar (a / 10 % 10) :: dchar (a % 10)
        :: '.' :: (pad2C b ++ '.' :: pad4C y) := rfl
  have hY : ∀ ts : List Tok,
      runToks (.Y :: ts) {} (pad2C a ++ '.' :: (pad2C b ++ '.' :: pad4C y)) = [] := by
    intro ts
    rw [hcons]
    exact runToks_Y_fail3 _ _ _ _ _ _ (by decide)
  have hD : ∀ (c : Char) (ts : List Tok),
      ¬ (48 ≤ c.toNat ∧ c.toNat ≤ 57) → ('.' : Char) ≠ c →
      runToks (.D :: .lit c :: ts) {} (pad2C a ++ '.' :: (pad2C b ++ '.' :: pad4C y)) = [] := by
    intro c ts hc hec
    rw [hcons]
    exact runToks_D_sep _ _ (by omega) _ _ c ts {} hc hec
  have hM : ∀ (c : Char) (ts : List Tok),
      ¬ (48 ≤ c.toNat ∧ c.toNat ≤ 57) → ('.' : Char) ≠ c →
      runToks (.M :: .lit c :: ts) {} (pad2C a ++ '.' :: (pad2C b ++ '.' :: pad4C y)) = [] := by
    intro c ts hc hec
    rw [hcons]
    exact runToks_M_sep _ _ (by omega) _ _ c ts {} hc hec
  have hBf : ∀ ts : List Tok,
      runToks (.B :: ts) {} (pad2C a ++ '.' :: (pad2C b ++ '.' :: pad4C y)) = [] := by
    intro ts
    rw [hcons]
    exact runToks_B_digit _ _ _ (isDigitC_dchar _ (by omega)) _
  have hBbf : ∀ ts : List Tok,
      runToks (.Bb :: ts) {} (pad2C a ++ '.' :: (pad2C b ++ '.' :: pad4C y)) = [] := by
    intro ts
    rw [hcons]
    exact runToks_Bb_digit _ _ _ (isDigitC_dchar _ (by omega)) _
  unfold strptimeStage fmts
  rw [fs_cons_none (fun f => applyFmt f (pad2C a ++ '.' :: (pad2C b ++ '.' :: pad4C y)))
      ([.Y, .lit '-', .M, .lit '-', .D], false) _
      (applyFmt_none _ _ (hY [.lit '-', .M, .lit '-', .D])),
    fs_cons_none (fun f => applyFmt f (pad2C a ++ '.' :: (pad2C b ++ '.' :: pad4C y)))
      ([.D, .lit '/', .M, .lit '/', .Y], false) _
      (applyFmt_none _ _ (hD '/' [.M, .lit '/', .Y] (by decide) (by decide))),
    fs_cons_none (fun f => applyFmt f (pad2C a ++ '.' :: (pad2C b ++ '.' :: pad4C y)))
      ([.D, .lit '-', .M, .lit '-', .Y], false) _
      (applyFmt_none _ _ (hD '-' [.M, .lit '-', .Y] (by decide) (by decide))),
    fs_cons_none (fun f => applyFmt f (pad2C a ++ '.' :: (pad2C b ++ '.' :: pad4C y)))
      ([.M, .lit '/', .Y], true) _
      (applyFmt_none _ _ (hM '/' [.Y] (by decide) (by decide))),
    fs_cons_none (fun f => applyFmt f (pad2C a ++ '.' :: (pad2C b ++ '.' :: pad4C y)))
      ([.Y, .lit '/', .M, .lit '/', .D], false) _
      (applyFmt_none _ _ (hY [.lit '/', .M, .lit '/', .D])),
    fs_cons_none (fun f => applyFmt f (pad2C a ++ '.' :: (pad2C b ++ '.' :: pad4C y)))
      ([.Y, .lit '-', .M], true) _
      (applyFmt_none _ _ (hY [.lit '-', .M])),
    fs_cons_none (fun f => applyFmt f (pad2C a ++ '.' :: (pad2C b ++ '.' :: pad4C y)))
      ([.Y, .lit '-', .M, .lit '-', .D, .ws, .H, .lit ':', .Mi, .lit ':', .S], false) _
      (applyFmt_none _ _ (hY [.lit '-', .M, .lit '-', .D, .ws, .H, .lit ':', .Mi, .lit ':', .S])),
    fs_cons_none (fun f => applyFmt f (pad2C a ++ '.' :: (pad2C b ++ '.' :: pad4C y)))
      ([.D, .lit '/', .M, .lit '/', .Y, .ws, .H, .lit ':', .Mi, .lit ':', .S], false) _
      (applyFmt_none _ _ (hD '/' [.M, .lit '/', .Y, .ws, .H, .lit ':', .Mi, .lit ':', .S] (by decide) (by decide))),
    fs_cons_none (fun f => applyFmt f (pad2C a ++ '.' :: (pad2C b ++ '.' :: pad4C y)))
      ([.B, .ws, .Y], true) _
      (applyFmt_none _ _ (hBf [.ws, .Y])),
    fs_cons_none (fun f => applyFmt f (pad2C a ++ '.' :: (pad2C b ++ '.' :: pad4C y)))
      ([.Bb, .ws, .Y], true) _
      (applyFmt_none _ _ (hBbf [.ws, .Y])),
    fs_cons_none (fun f => applyFmt f (pad2C a ++ '.' :: (pad2C b ++ '.' :: pad4C y)))
      ([.Y, .lit '/', .M], true) _
      (applyFmt_none _ _ (hY [.lit '/', .M])),
    fs_cons_none (fun f => applyFmt f (pad2C a ++ '.' :: (pad2C b ++ '.' :: pad4C y)))
      ([.M, .lit '-', .Y], true) _
      (applyFmt_none _ _ (hM '-' [.Y] (by decide) (by decide)))]
  rfl

theorem manualStage_D (a b y : ℕ) :
    manualStage (pad2C a ++ '.' :: (pad2C b ++ '.' :: pad4C y)) = none := by
  have hno : ∀ c : Char, ¬ (48 ≤ c.toNat ∧ c.toNat ≤ 57) → c ≠ '.' →
      c ∉ (pad2C a ++ '.' :: (pad2C b ++ '.' :: pad4C y) : List Char) := by
    intro c hc hcd hm
    rcases mem_three (pad2C a) (pad2C b) (pad4C y) '.' c hm with h | h | h | h
    · exact hcd h
    · obtain ⟨k, hk, hkk⟩ := mem_pad2C c a h
      subst hkk
      have hdig := isDigitC_dchar k hk
      simp [isDigitC] at hdig
      exact hc hdig
    · obtain ⟨k, hk, hkk⟩ := mem_pad2C c b h
      subst hkk
      have hdig := isDigitC_dchar k hk
      simp [isDigitC] at hdig
      exact hc hdig
    · obtain ⟨k, hk, hkk⟩ := mem_pad4C c y h
      subst hkk
      have hdig := isDigitC_dchar k hk
      simp [isDigitC] at hdig
      exact hc hdig
  unfold manualStage
  rw [if_neg (fun h => h.elim (hno '/' (by decide) (by decide))
    (hno '-' (by decide) (by decide)))]

/-- The modelled pandas fallback on a dotted ambiguous date: both small
numbers fit as day or month, and the day-first reading wins. -/
theorem pandas_D (a b y : ℕ) (ha1 : 1 ≤ a) (ha12 : a ≤ 12) (hb1 : 1 ≤ b)
    (hb12 : b ≤ 12) (hy1 : 1 ≤ y) (hy : y ≤ 9999) :
    pandas_dayfirst_fallback (pad2C a ++ '.' :: (pad2C b ++ '.' :: pad4C y)) = some ⟨y, b, a⟩ := by
  have hmapc : ∀ c ∈ (pad2C a ++ '.' :: (pad2C b ++ '.' :: pad4C y) : List Char),
      (if c = '/' ∨ c = '-' ∨ c = ' ' then '.' else c) = c := by
    intro c hc
    rcases mem_three (pad2C a) (pad2C b) (pad4C y) '.' c hc with h | h | h | h
    · subst h
      decide
    · obtain ⟨k, hk, rfl⟩ := mem_pad2C c a h
      rw [if_neg]
      rintro (h | h | h) <;>
        exact digit_ne _ (isDigitC_dchar k hk) _ (by decide) h
    · obtain ⟨k, hk, rfl⟩ := mem_pad2C c b h
      rw [if_neg]
      rintro (h | h | h) <;>
        exact digit_ne _ (isDigitC_dchar k hk) _ (by decide) h
    · obtain ⟨k, hk, rfl⟩ := mem_pad4C c y h
      rw [if_neg]
      rintro (h | h | h) <;>
        exact digit_ne _ (isDigitC_dchar k hk) _ (by decide) h
  have hnorm : (pad2C a ++ '.' :: (pad2C b ++ '.' :: pad4C y) : List Char).map
      (fun c => if c = '/' ∨ c = '-' ∨ c = ' ' then '.' else c)
      = pad2C a ++ '.' :: (pad2C b ++ '.' :: pad4C y) := by
    rw [List.map_congr_left hmapc]
    simp
  simp only [pandas_dayfirst_fallback]
  rw [hnorm, splitSep_three '.' (pad2C a) (pad2C b) (pad4C y)
    (pad2C_ne_sep a '.' (by decide)) (pad2C_ne_sep b '.' (by decide))
    (pad4C_ne_sep y '.' (by decide))]
  show (if pad2C a ≠ [] ∧ (pad2C a).length ≤ 2 ∧ (pad2C a).all isDigitC ∧
        pad2C b ≠ [] ∧ (pad2C b).length ≤ 2 ∧ (pad2C b).all isDigitC ∧
        (pad4C y).length = 4 ∧ (pad4C y).all isDigitC then
      if 1 ≤ valDigits (pad2C a) ∧ valDigits (pad2C a) ≤ 31 ∧
          1 ≤ valDigits (pad2C b) ∧ valDigits (pad2C b) ≤ 12 ∧
          1 ≤ valDigits (pad4C y) ∧
          valDigits (pad2C a) ≤ diasEnMes (valDigits (pad4C y)) (valDigits (pad2C b)) then
        some (Fecha.mk (valDigits (pad4C y)) (valDigits (pad2C b)) (valDigits (pad2C a)))
      else if 1 ≤ valDigits (pad2C b) ∧ valDigits (pad2C b) ≤ 31 ∧
          1 ≤ valDigits (pad2C a) ∧ valDigits (pad2C a) ≤ 12 ∧
          1 ≤ valDigits (pad4C y) ∧
          valDigits (pad2C b) ≤ diasEnMes (valDigits (pad4C y)) (valDigits (pad2C a)) then
        some (Fecha.mk (valDigits (pad4C y)) (valDigits (pad2C a)) (valDigits (pad2C b)))
      else none
    else none) = some (Fecha.mk y b a)
  rw [valDigits_pad2 a (by omega), valDigits_pad2 b (by omega),
    valDigits_pad4 y (by omega)]
  rw [if_pos ⟨by simp [pad2C], by simp [pad2C], pad2C_all_digit a,
      by simp [pad2C], by simp [pad2C], pad2C_all_digit b,
      by simp [pad4C], pad4C_all_digit y⟩,
    if_pos ⟨ha1, by omega, hb1, hb12, hy1,
      le_trans (by omega : a ≤ 28) (diasEnMes_ge_28 y b hb1 hb12)⟩]

/-- No fixed format matches `YYYY-0MM` (a three-digit month field):
`%m` consumes at most two digits, leaving unconverted data. -/
theorem strptimeStage_E (y2 m2 : ℕ) (hy : y2 ≤ 9999) (hm : m2 ≤ 99) :
    strptimeStage (pad4C y2 ++ '-' :: ('0' :: pad2C m2)) = none := by
  have hcons : (pad4C y2 ++ '-' :: ('0' :: pad2C m2) : List Char)
      = dchar (y2 / 1000 % 10) :: dchar (y2 / 100 % 10) :: dchar (y2 / 10 % 10)
        :: dchar (y2 % 10) :: '-' :: '0' :: pad2C m2 := rfl
  have hD : ∀ (c : Char) (ts : List Tok), ¬ (48 ≤ c.toNat ∧ c.toNat ≤ 57) →
      runToks (.D :: .lit c :: ts) {} (pad4C y2 ++ '-' :: ('0' :: pad2C m2)) = [] := by
    intro c ts hc
    rw [hcons]
    exact runToks_D_sep _ _ (by omega) _ _ c ts {} hc
      (digit_ne _ (isDigitC_dchar _ (by omega)) c hc)
  have hM : ∀ (c : Char) (ts : List Tok), ¬ (48 ≤ c.toNat ∧ c.toNat ≤ 57) →
      runToks (.M :: .lit c :: ts) {} (pad4C y2 ++ '-' :: ('0' :: pad2C m2)) = [] := by
    intro c ts hc
    rw [hcons]
    exact runToks_M_sep _ _ (by omega) _ _ c ts {} hc
      (digit_ne _ (isDigitC_dchar _ (by omega)) c hc)
  have hBf : ∀ ts : List Tok,
      runToks (.B :: ts) {} (pad4C y2 ++ '-' :: ('0' :: pad2C m2)) = [] := by
    intro ts
    rw [hcons]
    exact runToks_B_digit _ _ _ (isDigitC_dchar _ (by omega)) _
  have hBbf : ∀ ts : List Tok,
      runToks (.Bb :: ts) {} (pad4C y2 ++ '-' :: ('0' :: pad2C m2)) = [] := by
    intro ts
    rw [hcons]
    exact runToks_Bb_digit _ _ _ (isDigitC_dchar _ (by omega)) _
  have hYsl : ∀ ts : List Tok,
      runToks (.Y :: .lit '/' :: ts) {} (pad4C y2 ++ '-' :: ('0' :: pad2C m2)) = [] := by
    intro ts
    rw [runToks_Y_pad4 _ _ y2 _ hy, runToks_lit_ne '/' '-' (by decide)]
  have hpadz : m2 < 10 → ('0' :: pad2C m2 : List Char) = '0' :: '0' :: [dchar (m2 % 10)] := by
    intro hm10
    simp only [pad2C]
    rw [show m2 / 10 % 10 = 0 from by omega, dchar_eval0]
  have hMafter : ∀ (caps : Caps) (c : Char) (ts : List Tok),
      ¬ (48 ≤ c.toNat ∧ c.toNat ≤ 57) →
      runToks (.M :: .lit c :: ts) caps ('0' :: pad2C m2) = [] := by
    intro caps c ts hc
    by_cases hm10 : m2 < 10
    · rw [hpadz hm10]
      exact runToks_M_00 _ _ _
    · rw [show ('0' :: pad2C m2 : List Char)
          = '0' :: dchar (m2 / 10 % 10) :: [dchar (m2 % 10)] from rfl,
        runToks_M_0d _ _ _ _ (by omega) (by omega)]
      exact runToks_lit_dchar c hc (m2 % 10) (by omega) _ _ _
  have hYdM : ∀ (c : Char) (ts : List Tok), ¬ (48 ≤ c.toNat ∧ c.toNat ≤ 57) →
      runToks (.Y :: .lit '-' :: .M :: .lit c :: ts) {}
        (pad4C y2 ++ '-' :: ('0' :: pad2C m2)) = [] := by
    intro c ts hc
    rw [runToks_Y_pad4 _ _ y2 _ hy, runToks_lit_eq]
    exact hMafter _ c ts hc
  have h6 : applyFmt ([.Y, .lit '-', .M], true)
      (pad4C y2 ++ '-' :: ('0' :: pad2C m2)) = none := by
    by_cases hm10 : m2 < 10
    · apply applyFmt_none
      show runToks [.Y, .lit '-', .M] {} (pad4C y2 ++ '-' :: ('0' :: pad2C m2)) = []
      rw [runToks_Y_pad4 _ _ y2 _ hy, runToks_lit_eq, hpadz hm10]
      exact runToks_M_00 _ _ _
    · apply applyFmt_rest _ _ ⟨y2, m2 / 10 % 10, 1, 0, 0, 0⟩ [dchar (m2 % 10)] []
        ?_ (by simp)
      show runToks [.Y, .lit '-', .M] {} (pad4C y2 ++ '-' :: ('0' :: pad2C m2))
        = [(⟨y2, m2 / 10 % 10, 1, 0, 0, 0⟩, [dchar (m2 % 10)])]
      rw [runToks_Y_pad4 _ _ y2 _ hy, runToks_lit_eq,
        show ('0' :: pad2C m2 : List Char)
          = '0' :: dchar (m2 / 10 % 10) :: [dchar (m2 % 10)] from rfl,
        runToks_M_0d _ _ _ _ (by omega) (by omega)]
      rfl
  unfold strptimeStage fmts
  rw [fs_cons_none (fun f => applyFmt f (pad4C y2 ++ '-' :: ('0' :: pad2C m2)))
      ([.Y, .lit '-', .M, .lit '-', .D], false) _
      (applyFmt_none _ _ (hYdM '-' [.D] (by decide))),
    fs_cons_none (fun f => applyFmt f (pad4C y2 ++ '-' :: ('0' :: pad2C m2)))
      ([.D, .lit '/', .M, .lit '/', .Y], false) _
      (applyFmt_none _ _ (hD '/' [.M, .lit '/', .Y] (by decide))),
    fs_cons_none (fun f => applyFmt f (pad4C y2 ++ '-' :: ('0' :: pad2C m2)))
      ([.D, .lit '-', .M, .lit '-', .Y], false) _
      (applyFmt_none _ _ (hD '-' [.M, .lit '-', .Y] (by decide))),
    fs_cons_none (fun f => applyFmt f (pad4C y2 ++ '-' :: ('0' :: pad2C m2)))
      ([.M, .lit '/', .Y], true) _
      (applyFmt_none _ _ (hM '/' [.Y] (by decide))),
    fs_cons_none (fun f => applyFmt f (pad4C y2 ++ '-' :: ('0' :: pad2C m2)))
      ([.Y, .lit '/', .M, .lit '/', .D], false) _
      (applyFmt_none _ _ (hYsl [.M, .lit '/', .D])),
    fs_cons_none (fun f => applyFmt f (pad4C y2 ++ '-' :: ('0' :: pad2C m2)))
      ([.Y, .lit '-', .M], true) _ h6,
    fs_cons_none (fun f => applyFmt f (pad4C y2 ++ '-' :: ('0' :: pad2C m2)))
      ([.Y, .lit '-', .M, .lit '-', .D, .ws, .H, .lit ':', .Mi, .lit ':', .S], false) _
      (applyFmt_none _ _ (hYdM '-' [.D, .ws, .H, .lit ':', .Mi, .lit ':', .S] (by decide))),
    fs_cons_none (fun f => applyFmt f (pad4C y2 ++ '-' :: ('0' :: pad2C m2)))
      ([.D, .lit '/', .M, .lit '/', .Y, .ws, .H, .lit ':', .Mi, .lit ':', .S], false) _
      (applyFmt_none _ _ (hD '/' [.M, .lit '/', .Y, .ws, .H, .lit ':', .Mi, .lit ':', .S] (by decide))),
    fs_cons_none (fun f => applyFmt f (pad4C y2 ++ '-' :: ('0' :: pad2C m2)))
      ([.B, .ws, .Y], true) _
      (applyFmt_none _ _ (hBf [.ws, .Y])),
    fs_cons_none (fun f => applyFmt f (pad4C y2 ++ '-' :: ('0' :: pad2C m2)))
      ([.Bb, .ws, .Y], true) _
      (applyFmt_none _ _ (hBbf [.ws, .Y])),
    fs_cons_none (fun f => applyFmt f (pad4C y2 ++ '-' :: ('0' :: pad2C m2)))
      ([.Y, .lit '/', .M], true) _
      (applyFmt_none _ _ (hYsl [.M])),
    fs_cons_none (fun f => applyFmt f (pad4C y2 ++ '-' :: ('0' :: pad2C m2)))
      ([.M, .lit '-', .Y], true) _
      (applyFmt_none _ _ (hM '-' [.Y] (by decide)))]
  rfl

/-- The manual month/year split on `YYYY-0MM`: accepted as `(year,
month)` exactly within the documented ranges, yielding day 1. -/
theorem manualStage_E (y2 m2 : ℕ) (hy : y2 ≤ 9999) (hm : m2 ≤ 99) :
    manualStage (pad4C y2 ++ '-' :: ('0' :: pad2C m2))
      = if 1900 ≤ y2 ∧ y2 ≤ 2100 ∧ 1 ≤ m2 ∧ m2 ≤ 12 then some ⟨y2, m2, 1⟩
        else none := by
  have hbd : ∀ c ∈ ('0' :: pad2C m2 : List Char), c ≠ '-' := by
    intro c hc
    rcases List.mem_cons.mp hc with h | h
    · subst h
      decide
    · obtain ⟨k, hk, rfl⟩ := mem_pad2C c m2 h
      exact digit_ne _ (isDigitC_dchar k hk) '-' (by decide)
  have hmapc : ∀ c ∈ (pad4C y2 ++ '-' :: ('0' :: pad2C m2) : List Char),
      (if c = '/' then '-' else c) = c := by
    intro c hc
    rcases mem_two (pad4C y2) ('0' :: pad2C m2) '-' c hc with h | h | h
    · subst h
      decide
    · obtain ⟨k, hk, rfl⟩ := mem_pad4C c y2 h
      exact if_neg (digit_ne _ (isDigitC_dchar k hk) '/' (by decide))
    · rcases List.mem_cons.mp h with h | h
      · subst h
        decide
      · obtain ⟨k, hk, rfl⟩ := mem_pad2C c m2 h
        exact if_neg (digit_ne _ (isDigitC_dchar k hk) '/' (by decide))
  have hrep : pyReplaceChar (pad4C y2 ++ '-' :: ('0' :: pad2C m2)) '/' '-'
      = pad4C y2 ++ '-' :: ('0' :: pad2C m2) := by
    unfold pyReplaceChar
    rw [List.map_congr_left hmapc]
    simp
  unfold manualStage
  rw [if_pos (Or.inr (by simp)), hrep,
    splitSep_two '-' (pad4C y2) ('0' :: pad2C m2)
      (pad4C_ne_sep y2 '-' (by decide)) hbd]
  show (match pyInt (pad4C y2), pyInt ('0' :: pad2C m2) with
    | some year, some month =>
      if 1900 ≤ year ∧ year ≤ 2100 ∧ 1 ≤ month ∧ month ≤ 12 then
        some (Fecha.mk year.toNat month.toNat 1)
      else none
    | _, _ => none)
    = if 1900 ≤ y2 ∧ y2 ≤ 2100 ∧ 1 ≤ m2 ∧ m2 ≤ 12 then some (Fecha.mk y2 m2 1)
      else none
  rw [pyInt_digits (pad4C y2) (by simp [pad4C]) (pad4C_all_digit y2),
    pyInt_digits ('0' :: pad2C m2) (by simp)
      (by simp [List.all_cons, pad2C_all_digit m2,
        show isDigitC '0' = true from by decide]),
    valDigits_pad4 y2 (by omega), valDigits_cons_zero,
    valDigits_pad2 m2 (by omega)]
  show (if 1900 ≤ (y2 : ℤ) ∧ (y2 : ℤ) ≤ 2100 ∧ 1 ≤ (m2 : ℤ) ∧ (m2 : ℤ) ≤ 12 then
      some (Fecha.mk (y2 : ℤ).toNat (m2 : ℤ).toNat 1)
    else none)
    = if 1900 ≤ y2 ∧ y2 ≤ 2100 ∧ 1 ≤ m2 ∧ m2 ≤ 12 then some (Fecha.mk y2 m2 1)
      else none
  by_cases hcond : 1900 ≤ y2 ∧ y2 ≤ 2100 ∧ 1 ≤ m2 ∧ m2 ≤ 12
  · rw [if_pos hcond,
      if_pos ⟨by exact_mod_cast hcond.1, by exact_mod_cast hcond.2.1,
        by exact_mod_cast hcond.2.2.1, by exact_mod_cast hcond.2.2.2⟩]
    simp
  · rw [if_neg hcond,
      if_neg (fun hz => hcond ⟨by exact_mod_cast hz.1, by exact_mod_cast hz.2.1,
        by exact_mod_cast hz.2.2.1, by exact_mod_cast hz.2.2.2⟩)]

/-- The modelled pandas fallback rejects `YYYY-0MM`: two fields, not
three. -/
theorem pandas_E (y2 m2 : ℕ) :
    pandas_dayfirst_fallback (pad4C y2 ++ '-' :: ('0' :: pad2C m2)) = none := by
  have hmap4 : ∀ c ∈ pad4C y2,
      (if c = '/' ∨ c = '-' ∨ c = ' ' then '.' else c) = c := by
    intro c hc
    obtain ⟨k, hk, rfl⟩ := mem_pad4C c y2 hc
    rw [if_neg]
    rintro (h | h | h) <;>
      exact digit_ne _ (isDigitC_dchar k hk) _ (by decide) h
  have hmap2 : ∀ c ∈ pad2C m2,
      (if c = '/' ∨ c = '-' ∨ c = ' ' then '.' else c) = c := by
    intro c hc
    obtain ⟨k, hk, rfl⟩ := mem_pad2C c m2 hc
    rw [if_neg]
    rintro (h | h | h) <;>
      exact digit_ne _ (isDigitC_dchar k hk) _ (by decide) h
  have hnorm : (pad4C y2 ++ '-' :: ('0' :: pad2C m2) : List Char).map
      (fun c => if c = '/' ∨ c = '-' ∨ c = ' ' then '.' else c)
      = pad4C y2 ++ '.' :: ('0' :: pad2C m2) := by
    rw [List.map_append]
    congr 1
    · rw [List.map_congr_left hmap4]
      simp
    · rw [List.map_cons, List.map_cons,
        show (if ('-' : Char) = '/' ∨ ('-' : Char) = '-' ∨ ('-' : Char) = ' '
          then '.' else '-') = '.' from by decide,
        show (if ('0' : Char) = '/' ∨ ('0' : Char) = '-' ∨ ('0' : Char) = ' '
          then '.' else '0') = '0' from by decide]
      congr 1
      congr 1
      rw [List.map_congr_left hmap2]
      simp
  have hbd : ∀ c ∈ ('0' :: pad2C m2 : List Char), c ≠ '.' := by
    intro c hc
    rcases List.mem_cons.mp hc with h | h
    · subst h
      decide
    · obtain ⟨k, hk, rfl⟩ := mem_pad2C c m2 h
      exact digit_ne _ (isDigitC_dchar k hk) '.' (by decide)
  simp only [pandas_dayfirst_fallback]
  rw [hnorm, splitSep_two '.' (pad4C y2) ('0' :: pad2C m2)
    (pad4C_ne_sep y2 '.' (by decide)) hbd]

/-- **C2** — `safe_parse_date` walks the fixed ordered format list and
returns the first exact match, so precedence is deterministic: every
`DD/MM/YYYY` string (valid day `d` of month `m` of four-digit year `y`)
parses day-first to `(y, m, d)`; every ISO `YYYY-MM-DD` string parses
year-first to the same date; and in the final general-purpose fallback
(dotted input, matched by no fixed format and skipped by the manual
month/year split) an ambiguous two-small-number date resolves
day-before-month: `a.b.yyyy` with both `a` and `b` in 1..12 yields day
`a`, month `b`. -/
theorem safe_parse_date_precedencia (d m y : ℕ) (hd1 : 1 ≤ d)
    (hm1 : 1 ≤ m) (hm12 : m ≤ 12) (hy1 : 1 ≤ y) (hy : y ≤ 9999)
    (hdm : d ≤ diasEnMes y m) :
    safe_parse_date (String.mk (pad2C d ++ '/' :: (pad2C m ++ '/' :: pad4C y)))
      = some ⟨y, m, d⟩ ∧
    safe_parse_date (String.mk (pad4C y ++ '-' :: (pad2C m ++ '-' :: pad2C d)))
      = some ⟨y, m, d⟩ ∧
    (∀ a b : ℕ, 1 ≤ a → a ≤ 12 → 1 ≤ b → b ≤ 12 →
      safe_parse_date (String.mk (pad2C a ++ '.' :: (pad2C b ++ '.' :: pad4C y)))
        = some ⟨y, b, a⟩) := by
  have hd31 : d ≤ 31 := le_trans hdm (diasEnMes_le_31 y m hm12)
  refine ⟨?_, ?_, ?_⟩
  · exact safe_parse_date_stage1 _ _
      (pyStrip_eq_self _ (no_space_three (pad2C d) (pad2C m) (pad4C y) '/'
        (by decide) (pad2C_no_space d) (pad2C_no_space m) (pad4C_no_space y)))
      (by simp [pad2C]) _
      (strptimeStage_A d m y hd1 hd31 hm1 hm12 hy1 hy hdm)
  · exact safe_parse_date_stage1 _ _
      (pyStrip_eq_self _ (no_space_three (pad4C y) (pad2C m) (pad2C d) '-'
        (by decide) (pad4C_no_space y) (pad2C_no_space m) (pad2C_no_space d)))
      (by simp [pad4C]) _
      (strptimeStage_B d m y hd1 hd31 hm1 hm12 hy1 hy hdm)
  · intro a b ha1 ha12 hb1 hb12
    exact (safe_parse_date_stage3 _ _
      (pyStrip_eq_self _ (no_space_three (pad2C a) (pad2C b) (pad4C y) '.'
        (by decide) (pad2C_no_space a) (pad2C_no_space b) (pad4C_no_space y)))
      (by simp [pad2C]) (strptimeStage_D a b y) (manualStage_D a b y)).trans
      (pandas_D a b y ha1 ha12 hb1 hb12 hy1 hy)

theorem safe_parse_date_precedencia_witness :
    31 ≤ diasEnMes 2024 12 ∧
    safe_parse_date "31/12/2024" = some ⟨2024, 12, 31⟩ ∧
    safe_parse_date "2024-12-31" = some ⟨2024, 12, 31⟩ ∧
    safe_parse_date "05.06.2024" = some ⟨2024, 6, 5⟩ := by
  obtain ⟨h1, h2, h3⟩ := safe_parse_date_precedencia 31 12 2024 (by decide)
    (by decide) (by decide) (by decide) (by decide) (by decide)
  exact ⟨by decide, h1, h2,
    h3 5 6 (by decide) (by decide) (by decide) (by decide)⟩

/-- **C8** — month/year-only inputs resolve to the first day of the
month: every `MM/YYYY` string parses (via the `%m/%Y` format) to
`(y, m, 1)`; and when no fixed format matches — here `YYYY-0MM` with a
three-digit month field — the manual split on `/` or `-` into two
numeric parts is accepted as `(year, month)` if and only if
`1900 ≤ year ≤ 2100` and `1 ≤ month ≤ 12`, again yielding day 1 (and
`None` otherwise, the modelled pandas fallback rejecting the two-field
shape). -/
theorem safe_parse_date_mes_anio (m y : ℕ) (hm1 : 1 ≤ m) (hm12 : m ≤ 12)
    (hy1 : 1 ≤ y) (hy : y ≤ 9999) :
    safe_parse_date (String.mk (pad2C m ++ '/' :: pad4C y)) = some ⟨y, m, 1⟩ ∧
    (∀ y2 m2 : ℕ, y2 ≤ 9999 → m2 ≤ 99 →
      safe_parse_date (String.mk (pad4C y2 ++ '-' :: ('0' :: pad2C m2)))
        = if 1900 ≤ y2 ∧ y2 ≤ 2100 ∧ 1 ≤ m2 ∧ m2 ≤ 12 then some ⟨y2, m2, 1⟩
          else none) := by
  constructor
  · exact safe_parse_date_stage1 _ _
      (pyStrip_eq_self _ (no_space_two (pad2C m) (pad4C y) '/' (by decide)
        (pad2C_no_space m) (pad4C_no_space y)))
      (by simp [pad2C]) _ (strptimeStage_C m y hm1 hm12 hy1 hy)
  · intro y2 m2 hy2 hm2
    have hns : ∀ c ∈ (pad4C y2 ++ '-' :: ('0' :: pad2C m2) : List Char),
        isSpaceC c = false := by
      apply no_space_two _ _ _ (by decide) (pad4C_no_space y2)
      intro c hc
      rcases List.mem_cons.mp hc with h | h
      · subst h
        decide
      · exact pad2C_no_space m2 c h
    by_cases hcond : 1900 ≤ y2 ∧ y2 ≤ 2100 ∧ 1 ≤ m2 ∧ m2 ≤ 12
    · rw [if_pos hcond]
      exact safe_parse_date_stage2 _ _ (pyStrip_eq_self _ hns)
        (by simp [pad4C]) (strptimeStage_E y2 m2 hy2 hm2) _
        (by rw [manualStage_E y2 m2 hy2 hm2, if_pos hcond])
    · rw [if_neg hcond]
      exact (safe_parse_date_stage3 _ _ (pyStrip_eq_self _ hns)
        (by simp [pad4C]) (strptimeStage_E y2 m2 hy2 hm2)
        (by rw [manualStage_E y2 m2 hy2 hm2, if_neg hcond])).trans
        (pandas_E y2 m2)

theorem safe_parse_date_mes_anio_witness :
    (1 ≤ 12 ∧ 12 ≤ 12 ∧ 1 ≤ 2024 ∧ 2024 ≤ 9999) ∧
    safe_parse_date "12/2024" = some ⟨2024, 12, 1⟩ ∧
    safe_parse_date "2024-012" = some ⟨2024, 12, 1⟩ ∧
    safe_parse_date "2024-045" = none := by
  obtain ⟨h1, h2⟩ := safe_parse_date_mes_anio 12 2024 (by decide) (by decide)
    (by decide) (by decide)
  refine ⟨by decide, h1, ?_, ?_⟩
  · have h := h2 2024 12 (by decide) (by decide)
    rw [if_pos (by decide)] at h
    exact h
  · have h := h2 2024 45 (by decide) (by decide)
    rw [if_neg (by decide)] at h
    exact h

/-! ### C7: the fail-soft wrappers over dynamic arguments -/

/-- Fractional-part zero padding to width `n`. -/
def padNL (c n : ℕ) : List Char :=
  List.replicate (n - (natDigitsL c).length) '0' ++ natDigitsL c

/-- Python `f"{q:.{n}f}"` on an exact value (no thousands grouping). -/
def pyFormatFixed (q : ℚ) (n : ℕ) : List Char :=
  (if q < 0 then ['-'] else []) ++
    natDigitsL ((roundHalfEven (|q| * 10 ^ n)).toNat / 10 ^ n) ++
    (if n = 0 then []
     else '.' :: padNL ((roundHalfEven (|q| * 10 ^ n)).toNat % 10 ^ n) n)

/-- `formato_porcentaje` (formatters.py:327-348) on a numeric argument:
`porcentaje = valor * 100`, then `f"{porcentaje:.{decimales}f}%"` with
`.` replaced by `,`.  (`decimales` defaults to 2 in the source.) -/
def formato_porcentaje (valor : ℚ) (decimales : ℕ) : String :=
  String.mk (pyReplaceChar (pyFormatFixed (valor * 100) decimales ++ ['%'])
    '.' ',')

/-- A dynamic (duck-typed) argument as the formatting layer receives it:
a finite number (int/float/Decimal), the float `nan`, a string, or
`None`. -/
inductive PyVal where
  | num (q : ℚ)
  | pynan
  | pystr (s : String)
  | pynone

/-- `formato_moneda` (formatters.py:25-46) on a dynamic argument.  A
finite number formats through the f-string; CPython formats the float
`nan` under `,.2f` as the text `"nan"` — no exception, and the three
separator replacements find no `,` or `.` in it — so the result is
`"$ nan"`; `None` (`TypeError`) and strings (`ValueError` at the format
spec) land in the bare `except`, which returns the sentinel. -/
def formato_moneda_py : PyVal → String
  | .num q => formato_moneda q
  | .pynan => "$ nan"
  | .pystr _ => "$ 0,00"
  | .pynone => "$ 0,00"

/-- `formato_porcentaje` (formatters.py:327-348) on a dynamic argument:
`nan * 100` is `nan`, which formats under `.2f` as `"nan"` (the
replacement finds no `.`), giving `"nan%"`; `None * 100` raises
`TypeError`; a string survives `s * 100` (sequence repetition) but the
`f`-spec then raises `ValueError` — both reach the `except` returning
the sentinel. -/
def formato_porcentaje_py : PyVal → ℕ → String
  | .num q, d => formato_porcentaje q d
  | .pynan, _ => "nan%"
  | .pystr _, _ => "0,00%"
  | .pynone, _ => "0,00%"

/-- A dynamic argument of `safe_parse_date` as the claim exercises it:
`None`, the float `nan`, or a string.  (`datetime`/`date` objects and
other numeric arguments, which the function also accepts and
stringifies, are outside this embedding's input model.) -/
inductive DateInput where
  | dstr (s : String)
  | dnan
  | dnone

/-- `safe_parse_date` (formatters.py:76-87) dynamic-input handling:
`None`, and any float that is NaN, return `None` before parsing
begins; a string goes through the staged parser. -/
def safe_parse_date_py : DateInput → Option Fecha
  | .dnone => none
  | .dnan => none
  | .dstr s => safe_parse_date s

/-- `limpiar_valor_monetario` (formatters.py:292-324) on a dynamic
argument: only strings have `.replace`, so `None`, NaN and numbers
raise `AttributeError` on the first line and the `except` returns the
sentinel `0.0`. -/
def limpiar_valor_monetario_py : PyVal → ℚ
  | .pystr s => limpiar_valor_monetario s
  | .num _ => 0
  | .pynan => 0
  | .pynone => 0

/-- **C7** (as amended) — the formatting layer never lets an error
propagate: `None` and string (non-numeric / unparseable) inputs yield
the documented sentinels of the currency formatter, percentage
formatter, date parser and monetary cleaner, and the parser and cleaner
also map NaN to their sentinels.  (The two formatters render NaN as
text instead — see the counterexample.) -/
theorem formatters_fail_soft :
    (∀ s : String, formato_moneda_py (.pystr s) = "$ 0,00") ∧
    formato_moneda_py .pynone = "$ 0,00" ∧
    (∀ (s : String) (d : ℕ), formato_porcentaje_py (.pystr s) d = "0,00%") ∧
    (∀ d : ℕ, formato_porcentaje_py .pynone d = "0,00%") ∧
    safe_parse_date_py .dnone = none ∧
    safe_parse_date_py .dnan = none ∧
    safe_parse_date_py (.dstr "garbage") = none ∧
    limpiar_valor_monetario_py .pynone = 0 ∧
    limpiar_valor_monetario_py .pynan = 0 ∧
    (∀ q : ℚ, limpiar_valor_monetario_py (.num q) = 0) ∧
    limpiar_valor_monetario_py (.pystr "abc") = 0 := by
  refine ⟨fun s => rfl, rfl, fun s d => rfl, fun d => rfl, rfl, rfl, ?_,
    rfl, rfl, fun q => rfl, ?_⟩
  · decide
  · decide

/-- **C7 counterexample** — the float NaN is a missing value the claim
covers, yet the two formatters do not return their sentinels for it:
the f-string formats `nan` as text, so `formato_moneda` yields
`"$ nan"` and `formato_porcentaje` yields `"nan%"`. -/
theorem formato_nan_not_sentinel :
    formato_moneda_py .pynan = "$ nan" ∧
    formato_moneda_py .pynan ≠ "$ 0,00" ∧
    formato_porcentaje_py .pynan 2 = "nan%" ∧
    formato_porcentaje_py .pynan 2 ≠ "0,00%" :=
  ⟨rfl, by decide, rfl, by decide⟩

end Formatters
